import Mathlib

/-!
# iw6x-zero: whitelist validation and deployment decisions

A shallow embedding of `filesystem.go`, `main.go` and `paths.go`.

Go strings are Lean strings (valid UTF-8 only).  The standard-library calls the
program makes on strings (`strings.HasPrefix`, `strings.SplitN`,
`strings.EqualFold`, `path.Clean`, `filepath.Join`, `filepath.Dir`,
`filepath.Ext`, `filepath.IsAbs`) are embedded with their Unix behaviour.  Calls
that touch the operating system (`filepath.Glob`, `os.Stat`, `os.Symlink`, ...)
are fields of a structure the program is run against.
-/

namespace Iw6xZero

/-! ## Go standard library: strings and paths -/

/-- Go `strings.HasPrefix(s, prefix)`. -/
def HasPrefix (s pre : String) : Bool :=
  pre.data.isPrefixOf s.data

/-- Go `strings.EqualFold(s, t)`: the two strings have the same number of runes
and corresponding runes lie in the same `unicode.SimpleFold` orbit.  The orbit
is given by `foldRune`, which sends a rune to a fixed representative of its
orbit. -/
def EqualFold (foldRune : Char → Char) (s t : String) : Bool :=
  decide (s.data.map foldRune = t.data.map foldRune)

/-- The part of a string before the first `sep` and, when `sep` occurs, the part
after it. -/
def cutAt (sep : Char) : List Char → List Char × Option (List Char)
  | [] => ([], none)
  | c :: cs =>
    if c = sep then ([], some cs)
    else
      match cutAt sep cs with
      | (before, rest) => (c :: before, rest)

/-- Go `strings.SplitN(s, ":", 2)`: at most two substrings, cut at the first
colon. -/
def SplitN2 (s : String) : List String :=
  match cutAt ':' s.data with
  | (before, none) => [String.mk before]
  | (before, some rest) => [String.mk before, String.mk rest]

/-- Go `filepath.IsAbs` on Unix. -/
def IsAbs (path : String) : Bool :=
  HasPrefix path "/"

/-- Split a path at every slash (the elements may be empty). -/
def splitSlash : List Char → List (List Char)
  | [] => [[]]
  | c :: cs =>
    if c = '/' then [] :: splitSlash cs
    else
      match splitSlash cs with
      | [] => [[c]]
      | h :: t => (c :: h) :: t

/-- One step of `path.Clean` over the elements of a path; `out` holds the
elements kept so far, last one first. -/
def cleanStep (rooted : Bool) (out : List (List Char)) (elem : List Char) : List (List Char) :=
  if elem = [] then out
  else if elem = ['.'] then out
  else if elem = ['.', '.'] then
    match out with
    | [] => if rooted then [] else [elem]
    | top :: below => if top = ['.', '.'] then elem :: out else below
  else elem :: out

/-- Join path elements with single slashes. -/
def joinSlash : List (List Char) → List Char
  | [] => []
  | [e] => e
  | e :: es => e ++ '/' :: joinSlash es

/-- Go `path.Clean` (and `filepath.Clean` on Unix): the shortest equivalent path
obtained lexically. -/
def Clean (path : String) : String :=
  if path.data = [] then "."
  else
    let rooted := HasPrefix path "/"
    let out := (splitSlash path.data).foldl (cleanStep rooted) []
    let body := joinSlash out.reverse
    if rooted then String.mk ('/' :: body)
    else if body = [] then "."
    else String.mk body

/-- Go `filepath.Join(a, b)` on Unix: empty elements are ignored, the rest is
joined with a slash and cleaned. -/
def Join (a b : String) : String :=
  if a.data ≠ [] then Clean (String.mk (a.data ++ '/' :: b.data))
  else if b.data ≠ [] then Clean b
  else ""

/-- The text up to and including the last slash of a path, given reversed. -/
def dropLastElem : List Char → List Char
  | [] => []
  | c :: cs => if c = '/' then c :: cs else dropLastElem cs

/-- Go `filepath.Dir` on Unix: all but the last element of the path, cleaned. -/
def Dir (path : String) : String :=
  Clean (String.mk (dropLastElem path.data.reverse).reverse)

/-- The loop of `filepath.Ext`, scanning the path from its end; `acc` is the
text already passed. -/
def extScan : List Char → List Char → List Char
  | [], _ => []
  | c :: cs, acc =>
    if c = '/' then []
    else if c = '.' then '.' :: acc
    else extScan cs (c :: acc)

/-- Go `filepath.Ext`: the suffix beginning at the final dot of the last path
element, empty when there is no dot. -/
def Ext (path : String) : String :=
  String.mk (extScan path.data.reverse [])

/-! ## paths.go -/

/-- The three global lists of `paths.go`. -/
structure Paths where
  requiredFiles : List String
  symlinkableFolderPaths : List String
  windowsFiles : List String

/-- The lists as `paths.go` declares them. -/
def paths : Paths where
  requiredFiles := ["main/fileSysCheck.cfg", "zone/**.ff", "iw6mp64_ship.exe"]
  symlinkableFolderPaths := ["APEX", "main", "zone"]
  windowsFiles :=
    ["advapi32.dll", "d3d11.dll", "dxgi.dll", "gdi32.dll", "kernel32.dll", "ole32.dll",
     "powrprof.dll", "psapi.dll", "shell32.dll", "user32.dll", "winmm.dll"]

/-! ## filesystem.go: validation -/

/-- What validation reads from the Go runtime and the operating system. -/
structure Host where
  /-- A representative of the `unicode.SimpleFold` orbit of a rune. -/
  foldRune : Char → Char
  /-- The call `filepath.Glob(pattern)`: the matched paths, or the bad-pattern error. -/
  Glob : String → Except String (List String)
  /-- The call `filepath.Rel(basepath, targpath)`. -/
  Rel : String → String → Except String String
  /-- Opening the file at an absolute path with `os.OpenFile`, `pe.NewFile` on it
  and `ImportedSymbols()` of the result: the symbols, or the first error of the
  three. -/
  ImportedSymbols : String → Except String (List String)

/-- The type `fileSystem`. -/
structure fileSystem where
  baseDir : String

/-- The method `fileSystem.FullPath`. -/
def fileSystem.FullPath (fs : fileSystem) (name : String) : String :=
  Join fs.baseDir name

/-- How a call ends when it does not return normally to its caller. -/
inductive Abort where
  /-- The call `log.Fatal`: a message is logged and the process exits with status 1. -/
  | fatal (msg : String)
  /-- A run-time panic (an index out of range). -/
  | panic
  deriving DecidableEq, Repr

/-- The body of the `symbols` loop of `GetImportedLibrariesOfPEFile`:
`importedLibraries` is the list built so far. -/
def symbolsLoop (h : Host) (cfg : Paths) :
    List String → List String → Except Abort (List String)
  | [], importedLibraries => .ok importedLibraries
  | symbol :: rest, importedLibraries =>
    match (SplitN2 symbol)[1]? with
    | none => .error Abort.panic
    | some symbolPath =>
      if importedLibraries.any (fun included => EqualFold h.foldRune included symbolPath) then
        symbolsLoop h cfg rest importedLibraries
      else if cfg.windowsFiles.any (fun included => EqualFold h.foldRune included symbolPath) then
        symbolsLoop h cfg rest importedLibraries
      else
        symbolsLoop h cfg rest (importedLibraries ++ [symbolPath])

/-- The method `fileSystem.GetImportedLibrariesOfPEFile`: the outer layer is a
panic, the inner one the returned pair `(importedLibraries, err)`.  The path is
relative when `fs.OpenFile` is reached, so the check of `OpenFile` for an
absolute path cannot fire and the open is part of `h.ImportedSymbols`. -/
def fileSystem.GetImportedLibrariesOfPEFile (h : Host) (cfg : Paths) (fs : fileSystem)
    (path : String) : Except Abort (Except String (List String)) :=
  if IsAbs path then
    .ok (.error ("unexpected absolute path, expected relative: " ++ path))
  else
    match h.ImportedSymbols (fs.FullPath path) with
    | .error e => .ok (.error e)
    | .ok importedSymbols =>
      match symbolsLoop h cfg importedSymbols [] with
      | .error a => .error a
      | .ok importedLibraries => .ok (.ok importedLibraries)

/-! ### Reference definition of import extraction -/

/-- The library named by a symbol: the text after its first colon. -/
def libraryOf (symbol : String) : String :=
  String.mk (symbol.data.dropWhile (fun c => c != ':')).tail

/-- Keep only the first occurrence of every name, names being compared ignoring
case. -/
def keepFirstFold (foldRune : Char → Char) : List String → List String
  | [] => []
  | x :: xs => x :: (keepFirstFold foldRune xs).filter (fun y => !EqualFold foldRune x y)

/-- The reference result of import extraction: the named libraries, without the
excluded ones, each kept once. -/
def referenceImports (foldRune : Char → Char) (excluded symbols : List String) : List String :=
  keepFirstFold foldRune
    ((symbols.map libraryOf).filter
      (fun lib => !excluded.any (fun e => EqualFold foldRune e lib)))

/-- ASCII case folding, the restriction of `unicode.SimpleFold` orbits to ASCII
letters. -/
def asciiFold (c : Char) : Char :=
  if 65 ≤ c.toNat ∧ c.toNat ≤ 90 then Char.ofNat (c.toNat + 32) else c

/-- The named results `(ok, mismatchedPattern, allCheckedPaths, err)` of
`CheckGlobWhitelist`. -/
structure Results where
  ok : Bool
  mismatchedPattern : String
  allCheckedPaths : List String
  err : Option String
  deriving DecidableEq, Repr

/-- How the body of a loop of `CheckGlobWhitelist` ends. -/
inductive Flow where
  /-- The loop goes on, the named results being `r`. -/
  | next (r : Results)
  /-- A bare `return`, the named results being `r`. -/
  | ret (r : Results)
  /-- The process ends. -/
  | abort (a : Abort)
  deriving DecidableEq, Repr

/-- The loop `for _, matchedPath := range matchedPaths` of `CheckGlobWhitelist`;
`call` is the recursive call and `r` holds the named results on entry. -/
def matchedLoop (h : Host) (cfg : Paths) (fs : fileSystem)
    (call : List String → Option (Except Abort Results)) :
    List String → Results → Option Flow
  | [], r => some (.next r)
  | matchedPath :: rest, r =>
    match h.Rel fs.baseDir matchedPath with
    | .error e => some (.ret { r with err := some e })
    | .ok relPath =>
      let r₁ : Results := { r with err := none, allCheckedPaths := r.allCheckedPaths ++ [relPath] }
      if EqualFold h.foldRune (Ext matchedPath) ".exe" then
        match fs.GetImportedLibrariesOfPEFile h cfg relPath with
        | .error a => some (.abort a)
        | .ok (.error e) => some (.ret { r₁ with err := some e })
        | .ok (.ok importedLibraries) =>
          match call importedLibraries with
          | none => none
          | some (.error a) => some (.abort a)
          | some (.ok sub) =>
            let r₂ : Results :=
              { r₁ with ok := sub.ok, mismatchedPattern := sub.mismatchedPattern, err := sub.err }
            if !sub.ok || sub.err.isSome then some (.ret r₂)
            else
              matchedLoop h cfg fs call rest
                { r₂ with allCheckedPaths := r₂.allCheckedPaths ++ sub.allCheckedPaths }
      else matchedLoop h cfg fs call rest r₁

/-- The loop `for _, pattern := range requiredFiles` of `CheckGlobWhitelist`
followed by the final `ok = true; return`. -/
def patternLoop (h : Host) (cfg : Paths) (fs : fileSystem)
    (call : List String → Option (Except Abort Results)) :
    List String → Results → Option (Except Abort Results)
  | [], r => some (.ok { r with ok := true })
  | pattern :: rest, r =>
    match h.Glob (fs.FullPath pattern) with
    | .error e => some (.error (.fatal e))
    | .ok matchedPaths =>
      let r₁ : Results := { r with err := none }
      if matchedPaths.length ≤ 0 then some (.ok { r₁ with mismatchedPattern := pattern })
      else
        match matchedLoop h cfg fs call matchedPaths r₁ with
        | none => none
        | some (.abort a) => some (.error a)
        | some (.ret r₂) => some (.ok r₂)
        | some (.next r₂) => patternLoop h cfg fs call rest r₂

/-- The named results on entry to `CheckGlobWhitelist`, after
`allCheckedPaths = []string{}`. -/
def Results.zero : Results :=
  { ok := false, mismatchedPattern := "", allCheckedPaths := [], err := none }

/-- The method `fileSystem.CheckGlobWhitelist`.  The first argument bounds the
depth of the recursion; `none` means the bound was reached before the call
returned. -/
def fileSystem.CheckGlobWhitelist (h : Host) (cfg : Paths) (fs : fileSystem) :
    Nat → List String → Option (Except Abort Results)
  | 0, _ => none
  | depth + 1, requiredFiles =>
    patternLoop h cfg fs (fileSystem.CheckGlobWhitelist h cfg fs depth) requiredFiles Results.zero

/-! ### Hosts used as concrete inputs -/

/-- A `filepath.Rel` for targets below the base directory: the base and the
slash after it are removed. -/
def relBelow (base targ : String) : Except String String :=
  if HasPrefix targ (String.mk (base.data ++ ['/'])) then
    .ok (String.mk (targ.data.drop (base.data.length + 1)))
  else .error "Rel: can't make relative"

/-- A host given by a table of glob results and a table of imported symbols. -/
def tableHost (globs : List (String × List String)) (symbols : List (String × List String)) :
    Host where
  foldRune := asciiFold
  Glob := fun pattern => .ok ((globs.lookup pattern).getD [])
  Rel := relBelow
  ImportedSymbols := fun path =>
    match symbols.lookup path with
    | some syms => .ok syms
    | none => .error "open: no such file or directory"

/-- The scope rooted at `/src`. -/
def srcFs : fileSystem := { baseDir := "/src" }

/-! ## The operating system, as deployment uses it -/

/-- An error of an operating-system call, by the classes the program tells
apart. -/
inductive OsErr where
  /-- An error for which `os.IsNotExist` holds. -/
  | notExist
  /-- An error for which `os.IsExist` holds. -/
  | exist
  /-- Any other error, with its text. -/
  | other (msg : String)
  deriving DecidableEq, Repr

/-- Go `os.IsNotExist`. -/
def IsNotExist : OsErr → Bool
  | .notExist => true
  | _ => false

/-- Go `os.IsExist`. -/
def IsExist : OsErr → Bool
  | .exist => true
  | _ => false

/-- The method `Error()` of an error. -/
def OsErr.Error : OsErr → String
  | .notExist => "no such file or directory"
  | .exist => "file exists"
  | .other msg => msg

/-- Go `os.ModeDir`, bit 31 of a file mode. -/
def ModeDir : Nat := 2 ^ 31

/-- Go `os.ModeSymlink`, bit 27 of a file mode. -/
def ModeSymlink : Nat := 2 ^ 27

/-- Go `os.FileInfo`, reduced to what the program reads: `Mode()` and `Size()`. -/
structure FileInfo where
  Mode : Nat
  Size : Nat
  deriving DecidableEq, Repr

/-- Go `FileInfo.IsDir()`. -/
def FileInfo.IsDir (info : FileInfo) : Bool :=
  info.Mode &&& ModeDir != 0

/-- Go `FileMode.Perm()`: the nine permission bits. -/
def Perm (mode : Nat) : Nat :=
  mode &&& 0o777

/-- The two flag sets the program opens files with. -/
inductive OpenFlag where
  /-- `os.O_RDONLY`. -/
  | rdonly
  /-- `os.O_CREATE|os.O_WRONLY`. -/
  | createWronly
  deriving DecidableEq, Repr

/-- The operating-system calls of deployment over a state `σ` of the machine;
every path is absolute.  A call that may change the machine returns the new
state and the error, if any. -/
structure OS (σ : Type) where
  Stat : σ → String → Except OsErr FileInfo
  Lstat : σ → String → Except OsErr FileInfo
  Readlink : σ → String → Except OsErr String
  MkdirAll : σ → String → Nat → σ × Option OsErr
  Symlink : σ → (oldname newname : String) → σ × Option OsErr
  OpenFile : σ → String → OpenFlag → (perm : Nat) → σ × Option OsErr
  /-- The call `io.Copy(targetFile, sourceFile)`, the files given by their paths. -/
  Copy : σ → (target source : String) → σ × Option OsErr
  Chmod : σ → String → Nat → σ × Option OsErr

section Deployment

variable {σ : Type}

/-- The method `fileSystem.MkdirAll`. -/
def fileSystem.MkdirAll (os : OS σ) (fs : fileSystem) (w : σ) (name : String) (perm : Nat) :
    σ × Option OsErr :=
  os.MkdirAll w (fs.FullPath name) perm

/-- The method `fileSystem.Readlink`. -/
def fileSystem.Readlink (os : OS σ) (fs : fileSystem) (w : σ) (name : String) :
    Except OsErr String :=
  os.Readlink w (fs.FullPath name)

/-- The method `fileSystem.SymlinkFromFs`. -/
def fileSystem.SymlinkFromFs (os : OS σ) (fs : fileSystem) (w : σ) (name : String)
    (targetFs : fileSystem) : σ × Option OsErr :=
  let sourcePath := fs.FullPath name
  let targetPath := targetFs.FullPath name
  os.Symlink w sourcePath targetPath

/-- The method `fileSystem.Stat`. -/
def fileSystem.Stat (os : OS σ) (fs : fileSystem) (w : σ) (name : String) :
    Except OsErr FileInfo :=
  os.Stat w (fs.FullPath name)

/-- The method `fileSystem.Lstat`. -/
def fileSystem.Lstat (os : OS σ) (fs : fileSystem) (w : σ) (name : String) :
    Except OsErr FileInfo :=
  os.Lstat w (fs.FullPath name)

/-- The method `fileSystem.OpenFile`. -/
def fileSystem.OpenFile (os : OS σ) (fs : fileSystem) (w : σ) (name : String) (flag : OpenFlag)
    (perm : Nat) : σ × Option OsErr :=
  if IsAbs name then
    (w, some (.other ("unexpected absolute path, expected relative: " ++ name)))
  else os.OpenFile w (fs.FullPath name) flag perm

/-- The method `fileSystem.CopyToFs`. -/
def fileSystem.CopyToFs (os : OS σ) (fs : fileSystem) (w : σ) (name : String)
    (targetFs : fileSystem) (mode : Nat) : σ × Option OsErr :=
  match fs.OpenFile os w name .rdonly 0 with
  | (w₁, some e) => (w₁, some e)
  | (w₁, none) =>
    let chosen : Except OsErr Nat :=
      if mode = 0 then
        match fs.Stat os w₁ name with
        | .error e => .error e
        | .ok sourceStat => .ok (Perm sourceStat.Mode)
      else .ok mode
    match chosen with
    | .error e => (w₁, some e)
    | .ok mode =>
      match targetFs.OpenFile os w₁ name .createWronly (mode ||| 0o100) with
      | (w₂, some e) => (w₂, some e)
      | (w₂, none) =>
        match os.Copy w₂ (targetFs.FullPath name) (fs.FullPath name) with
        | (w₃, some e) => (w₃, some e)
        | (w₃, none) => os.Chmod w₃ (targetFs.FullPath name) mode

/-! ## main.go -/

/-- The command-line flags `--symlink` and `--symlink-fail`. -/
structure Flags where
  shouldSymlink : Bool
  shouldFailOnSymlinkError : Bool
  deriving DecidableEq, Repr

/-- A call of one of the two deployment methods, as recorded while `main` runs:
the name passed, the mode passed to `CopyToFs`, and whether the call returned
without error. -/
inductive Op where
  | symlink (name : String) (done : Bool)
  | copy (name : String) (mode : Nat) (done : Bool)
  deriving DecidableEq, Repr

/-- The state of the deployment loop of `main`: the machine, the variable
`totalSize`, and the record of the deployment calls made so far. -/
structure Progress (σ : Type) where
  world : σ
  totalSize : Nat
  ops : List Op

/-- How `main` ends. -/
inductive Exit (σ : Type) where
  /-- Through `log.Fatal`: `msg` is logged and the process exits with status 1. -/
  | fatal (msg : String) (p : Progress σ)
  /-- Through a bare `return` inside the loop: nothing is logged and the process
  exits with status 0. -/
  | returned (p : Progress σ)
  /-- At the end of `main`, after `All OK!` is logged; the exit status is 0. -/
  | allOk (p : Progress σ)

/-- The exit status of the process. -/
def Exit.status : Exit σ → Nat
  | .fatal _ _ => 1
  | .returned _ => 0
  | .allOk _ => 0

/-- The message the process logs last: the fatal error, the success line, or
nothing. -/
def Exit.lastLog : Exit σ → Option String
  | .fatal msg _ => some msg
  | .returned _ => none
  | .allOk _ => some "All OK!"

/-- How one iteration of the deployment loop ends. -/
inductive Step (σ : Type) where
  /-- The loop goes on to the next path. -/
  | next (p : Progress σ)
  /-- The process ends. -/
  | exit (e : Exit σ)

/-- The loop `for _, symlinkablePath := range symlinkableFolderPaths` of `main`:
the values of `relPath` and `dirPath` after it. -/
def promote (relPath dirPath : String) : List String → String × String
  | [] => (relPath, dirPath)
  | symlinkablePath :: rest =>
    if HasPrefix (Clean relPath) (Clean symlinkablePath) then
      (symlinkablePath, Dir symlinkablePath)
    else promote relPath dirPath rest

/-- Lines 56 to 80 of `main`: the folder loop and the check of the target with
`Lstat`; the result is the pair `(relPath, dirPath)` afterwards, or the error
`log.Fatal` is called with. -/
def selectUnit (os : OS σ) (cfg : Paths) (targetFs : fileSystem) (w : σ)
    (relPath dirPath : String) : Except OsErr (String × String) :=
  let oldRelPath := relPath
  let oldDirPath := dirPath
  match promote relPath dirPath cfg.symlinkableFolderPaths with
  | (relPath, dirPath) =>
    match targetFs.Lstat os w relPath with
    | .error err => if !IsNotExist err then .error err else .ok (relPath, dirPath)
    | .ok targetInfo =>
      if targetInfo.IsDir then .ok (oldRelPath, oldDirPath) else .ok (relPath, dirPath)

/-- The condition `err != nil && !os.IsExist(err)` on the result of `MkdirAll`. -/
def mkdirFailed : Option OsErr → Bool
  | some err => !IsExist err
  | none => false

/-- Go addition on `uint64`. -/
def addUint64 (a b : Nat) : Nat :=
  (a + b) % 2 ^ 64

/-- Lines 114 to 132 of `main`: the copy of one path. -/
def copyBranch (os : OS σ) (sourceFs targetFs : fileSystem) (relPath dirPath : String)
    (p : Progress σ) : Step σ :=
  match sourceFs.Stat os p.world relPath with
  | .error err => .exit (.fatal err.Error p)
  | .ok info =>
    match targetFs.MkdirAll os p.world dirPath (info.Mode ||| 0o700) with
    | (w₁, err) =>
      if mkdirFailed err then .exit (.returned { p with world := w₁ })
      else
        let mode := info.Mode &&& 0o666
        match sourceFs.CopyToFs os w₁ relPath targetFs mode with
        | (w₂, some err) =>
          .exit (.fatal err.Error
            { p with world := w₂, ops := p.ops ++ [.copy relPath mode false] })
        | (w₂, none) =>
          .next { world := w₂, totalSize := addUint64 p.totalSize info.Size,
                  ops := p.ops ++ [.copy relPath mode true] }

/-- The condition of line 83 of `main`: the target holds a symlink at `relPath`
whose value is the full source path of `relPath`. -/
def alreadyLinked (os : OS σ) (sourceFs targetFs : fileSystem) (w : σ) (relPath : String) :
    Bool :=
  match targetFs.Readlink os w relPath with
  | .ok symlinkTarget => symlinkTarget == sourceFs.FullPath relPath
  | .error _ => false

/-- The body of the deployment loop of `main` for one path. -/
def deployPath (os : OS σ) (cfg : Paths) (flags : Flags) (sourceFs targetFs : fileSystem)
    (relPath : String) (p : Progress σ) : Step σ :=
  let dirPath := Dir relPath
  if flags.shouldSymlink then
    let oldRelPath := relPath
    let oldDirPath := dirPath
    match selectUnit os cfg targetFs p.world relPath dirPath with
    | .error err => .exit (.fatal err.Error p)
    | .ok (relPath, dirPath) =>
      if alreadyLinked os sourceFs targetFs p.world relPath then .next p
      else
        match sourceFs.Stat os p.world relPath with
        | .error err => .exit (.fatal err.Error p)
        | .ok info =>
          match targetFs.MkdirAll os p.world dirPath (info.Mode ||| 0o700) with
          | (w₁, err) =>
            if mkdirFailed err then .exit (.returned { p with world := w₁ })
            else
              match sourceFs.SymlinkFromFs os w₁ relPath targetFs with
              | (w₂, none) =>
                let total :=
                  match targetFs.Stat os w₂ relPath with
                  | .ok info => addUint64 p.totalSize info.Size
                  | .error _ => p.totalSize
                .next { world := w₂, totalSize := total,
                        ops := p.ops ++ [.symlink relPath true] }
              | (w₂, some err) =>
                let p₂ : Progress σ :=
                  { p with world := w₂, ops := p.ops ++ [.symlink relPath false] }
                if !flags.shouldFailOnSymlinkError then
                  copyBranch os sourceFs targetFs oldRelPath oldDirPath p₂
                else .exit (.fatal ("Failed to create symlink: " ++ err.Error) p₂)
  else copyBranch os sourceFs targetFs relPath dirPath p

/-- The loop `for _, relPath := range allCheckedPaths` of `main` and the end of
`main` after it. -/
def deployLoop (os : OS σ) (cfg : Paths) (flags : Flags) (sourceFs targetFs : fileSystem) :
    List String → Progress σ → Exit σ
  | [], p => .allOk p
  | relPath :: rest, p =>
    match deployPath os cfg flags sourceFs targetFs relPath p with
    | .next p₁ => deployLoop os cfg flags sourceFs targetFs rest p₁
    | .exit e => e

end Deployment

/-! ### A table file system, used as concrete input -/

/-- An entry of the table file system. -/
inductive Node where
  | file (mode size : Nat)
  | dir (mode : Nat)
  | link (target : String)
  deriving DecidableEq, Repr

/-- The table file system: absolute paths and what they hold.  New entries go to
the end, and the first entry of a path is the one in force. -/
abbrev Disk := List (String × Node)

/-- What `Lstat` reports for an entry. -/
def Node.info : Node → FileInfo
  | .file mode size => { Mode := mode, Size := size }
  | .dir mode => { Mode := ModeDir ||| mode, Size := 4096 }
  | .link target => { Mode := ModeSymlink ||| 0o777, Size := target.length }

/-- The entry a path leads to when a symlink at its end is followed once. -/
def Disk.follow (d : Disk) (path : String) : Option Node :=
  match d.lookup path with
  | some (.link target) =>
    match d.lookup target with
    | some (.link _) => none
    | other => other
  | other => other

/-- Replace the entry in force at `path`. -/
def Disk.put (path : String) (n : Node) : Disk → Disk
  | [] => []
  | (q, m) :: rest => if q = path then (q, n) :: rest else (q, m) :: Disk.put path n rest

/-- The path at which a change through `path` lands: the target of a symlink at
`path`, else `path` itself. -/
def Disk.landing (d : Disk) (path : String) : String :=
  match d.lookup path with
  | some (.link target) => target
  | _ => path

/-- The operating-system calls over the table file system.  Parent directories
are not tracked: `MkdirAll` adds the one directory it is asked for. -/
def diskOS : OS Disk where
  Stat := fun d path =>
    match d.follow path with
    | some n => .ok n.info
    | none => .error .notExist
  Lstat := fun d path =>
    match d.lookup path with
    | some n => .ok n.info
    | none => .error .notExist
  Readlink := fun d path =>
    match d.lookup path with
    | some (.link target) => .ok target
    | some _ => .error (.other "readlink: invalid argument")
    | none => .error .notExist
  MkdirAll := fun d path perm =>
    match d.follow path with
    | some (.dir _) => (d, none)
    | some _ => (d, some (.other "mkdir: not a directory"))
    | none =>
      match d.lookup path with
      | none => (d ++ [(path, .dir (Perm perm))], none)
      | some _ => (d, some (.other "mkdir: not a directory"))
  Symlink := fun d oldname newname =>
    match d.lookup newname with
    | none => (d ++ [(newname, .link oldname)], none)
    | some _ => (d, some .exist)
  OpenFile := fun d path flag perm =>
    match flag with
    | .rdonly =>
      match d.follow path with
      | some _ => (d, none)
      | none => (d, some .notExist)
    | .createWronly =>
      match d.follow path with
      | some (.file _ _) => (d, none)
      | some _ => (d, some (.other "open: is a directory"))
      | none =>
        match d.lookup path with
        | none => (d ++ [(path, .file (Perm perm) 0)], none)
        | some _ => (d, some .notExist)
  Copy := fun d target source =>
    match d.follow source, d.follow target with
    | some (.file _ size), some (.file mode old) =>
      (Disk.put (d.landing target) (.file mode (max old size)) d, none)
    | some (.dir _), _ => (d, some (.other "read: is a directory"))
    | _, _ => (d, some (.other "copy: bad file descriptor"))
  Chmod := fun d path mode =>
    match d.follow path with
    | some (.file _ size) => (Disk.put (d.landing path) (.file (Perm mode) size) d, none)
    | some (.dir _) => (Disk.put (d.landing path) (.dir (Perm mode)) d, none)
    | _ => (d, some .notExist)

/-- The scope rooted at `/dst`. -/
def dstFs : fileSystem := { baseDir := "/dst" }

/-- The run of the deployment loop of `main` from `/src` to `/dst` over the
table file system, starting with `totalSize` 0. -/
def deployDisk (flags : Flags) (allCheckedPaths : List String) (d : Disk) : Exit Disk :=
  deployLoop diskOS paths flags srcFs dstFs allCheckedPaths
    { world := d, totalSize := 0, ops := [] }

/-! ### Concrete source trees -/

/-- The scenario of the specification: the configuration file, two zone files
and the executable are present; the executable imports from `user32.dll`
(twice, in two casings) and from `mydll.dll`, which is present exactly when
`withDll` is set. -/
def scenarioHost (withDll : Bool) : Host :=
  tableHost
    ([("/src/main/fileSysCheck.cfg", ["/src/main/fileSysCheck.cfg"]),
      ("/src/zone/**.ff", ["/src/zone/common.ff", "/src/zone/mp.ff"]),
      ("/src/iw6mp64_ship.exe", ["/src/iw6mp64_ship.exe"])]
      ++ (if withDll then [("/src/mydll.dll", ["/src/mydll.dll"])] else []))
    [("/src/iw6mp64_ship.exe",
      ["MessageBoxA:user32.dll", "Init:mydll.dll", "GetDC:USER32.DLL"])]

/-- A source tree in which the executable is present and imports only from
`user32.dll`, the zone files are present and the configuration file is absent. -/
def noCfgHost : Host :=
  tableHost
    [("/src/zone/**.ff", ["/src/zone/common.ff", "/src/zone/mp.ff"]),
     ("/src/iw6mp64_ship.exe", ["/src/iw6mp64_ship.exe"])]
    [("/src/iw6mp64_ship.exe", ["MessageBoxA:user32.dll"])]

/-- The source tree of the specification's scenario in which the
executable imports from `helper.exe`, which is present and has no imports of
its own, and then from `mydll.dll`, which is absent. -/
def helperHost : Host :=
  tableHost
    [("/src/main/fileSysCheck.cfg", ["/src/main/fileSysCheck.cfg"]),
     ("/src/zone/**.ff", ["/src/zone/common.ff", "/src/zone/mp.ff"]),
     ("/src/iw6mp64_ship.exe", ["/src/iw6mp64_ship.exe"]),
     ("/src/helper.exe", ["/src/helper.exe"])]
    [("/src/iw6mp64_ship.exe", ["Run:helper.exe", "Init:mydll.dll"]),
     ("/src/helper.exe", [])]

/-- A source tree holding one executable that imports from itself. -/
def selfImportHost : Host :=
  tableHost [("/src/a.exe", ["/src/a.exe"])] [("/src/a.exe", ["Entry:a.exe"])]

/-! ### Reference definitions for validation -/

/-- Whether a matched path is treated as an executable. -/
def isExe (h : Host) (matchedPath : String) : Bool :=
  EqualFold h.foldRune (Ext matchedPath) ".exe"

/-- The verified-path list as the specification words it, to nesting depth
`depth`: over the patterns in order and over the matches of each in expansion
order, the relative path of the match, followed by the list for its
extracted imports when the match is an executable. -/
def verifiedClosure (h : Host) (cfg : Paths) (fs : fileSystem) : Nat → List String → List String
  | 0, _ => []
  | depth + 1, patterns =>
    patterns.flatMap fun pattern =>
      match h.Glob (fs.FullPath pattern) with
      | .error _ => []
      | .ok matchedPaths =>
        matchedPaths.flatMap fun matchedPath =>
          match h.Rel fs.baseDir matchedPath with
          | .error _ => []
          | .ok relPath =>
            relPath ::
              (if isExe h matchedPath then
                match fs.GetImportedLibrariesOfPEFile h cfg relPath with
                | .ok (.ok importedLibraries) => verifiedClosure h cfg fs depth importedLibraries
                | _ => []
              else [])

/-- Pattern `q` is among `patterns` or among the imports extracted from an
executable matched by a pattern that is. -/
inductive Reaches (h : Host) (cfg : Paths) (fs : fileSystem) (patterns : List String) :
    String → Prop where
  | top {q : String} : q ∈ patterns → Reaches h cfg fs patterns q
  | imported {p q matchedPath relPath : String} {matchedPaths importedLibraries : List String} :
      Reaches h cfg fs patterns p →
      h.Glob (fs.FullPath p) = .ok matchedPaths →
      matchedPath ∈ matchedPaths →
      h.Rel fs.baseDir matchedPath = .ok relPath →
      isExe h matchedPath = true →
      fs.GetImportedLibrariesOfPEFile h cfg relPath = .ok (.ok importedLibraries) →
      q ∈ importedLibraries →
      Reaches h cfg fs patterns q

/-- Pattern `q` matches at least one path, and every path it matches has a
relative path and, when it is an executable, parses. -/
def Satisfied (h : Host) (cfg : Paths) (fs : fileSystem) (q : String) : Prop :=
  ∃ matchedPaths, h.Glob (fs.FullPath q) = .ok matchedPaths ∧ matchedPaths ≠ [] ∧
    ∀ matchedPath ∈ matchedPaths, ∃ relPath, h.Rel fs.baseDir matchedPath = .ok relPath ∧
      (isExe h matchedPath = true →
        ∃ importedLibraries,
          fs.GetImportedLibrariesOfPEFile h cfg relPath = .ok (.ok importedLibraries))

/-- Every pattern matches at least one path and every matched executable
parses and has all of its transitive imports resolvable. -/
def AllResolvable (h : Host) (cfg : Paths) (fs : fileSystem) (patterns : List String) : Prop :=
  ∀ q, Reaches h cfg fs patterns q → Satisfied h cfg fs q

/-- A matched path has a relative path and, when it is an executable, parses
and its extracted imports satisfy `importsOk`. -/
def matchResolvable (h : Host) (cfg : Paths) (fs : fileSystem) (importsOk : List String → Bool)
    (matchedPath : String) : Bool :=
  match h.Rel fs.baseDir matchedPath with
  | .error _ => false
  | .ok relPath =>
    if isExe h matchedPath then
      match fs.GetImportedLibrariesOfPEFile h cfg relPath with
      | .ok (.ok importedLibraries) => importsOk importedLibraries
      | _ => false
    else true

/-- A pattern matches at least one path and each of its matches satisfies
`matchResolvable`. -/
def patternResolvable (h : Host) (cfg : Paths) (fs : fileSystem)
    (importsOk : List String → Bool) (pattern : String) : Bool :=
  match h.Glob (fs.FullPath pattern) with
  | .error _ => false
  | .ok matchedPaths =>
    !matchedPaths.isEmpty && matchedPaths.all (matchResolvable h cfg fs importsOk)

/-- Every pattern matches at least one path and every matched executable parses
and has all of its transitive imports resolvable, executables importing
executables being nested at most `depth` levels deep (the patterns themselves
are level one). -/
def resolvableWithin (h : Host) (cfg : Paths) (fs : fileSystem) : Nat → List String → Bool
  | 0, _ => false
  | depth + 1, patterns =>
    patterns.all (patternResolvable h cfg fs (resolvableWithin h cfg fs depth))

/-! ### Reference notions and operating-system laws for deployment -/

/-- A path lies under a folder: cleaned, it is the folder itself or starts with
the folder followed by a path separator. -/
def liesUnder (relPath folder : String) : Bool :=
  decide (Clean relPath = folder)
    || HasPrefix (Clean relPath) (String.mk (folder.data ++ ['/']))

/-- After a successful `Chmod`, `Stat` of the same path reports the permission
bits just set. -/
def ChmodLaw {σ : Type} (os : OS σ) : Prop :=
  ∀ (w w' : σ) (path : String) (mode : Nat),
    os.Chmod w path mode = (w', none) →
      ∃ info, os.Stat w' path = .ok info ∧ Perm info.Mode = Perm mode

/-- What the idempotence of symlink deployment rests on: `Readlink` succeeds
only where `Lstat` reports something other than a directory, a successful
`Symlink` is read back by `Readlink`, and neither `MkdirAll` nor `Symlink`
removes or replaces an existing symlink or directory. -/
structure LinkLaws {σ : Type} (os : OS σ) : Prop where
  readlink_lstat : ∀ (w : σ) (path target : String),
    os.Readlink w path = .ok target →
      ∃ info, os.Lstat w path = .ok info ∧ info.IsDir = false
  symlink_readlink : ∀ (w w' : σ) (oldname newname : String),
    os.Symlink w oldname newname = (w', none) → os.Readlink w' newname = .ok oldname
  mkdirAll_readlink : ∀ (w : σ) (dir : String) (perm : Nat) (path target : String),
    os.Readlink w path = .ok target →
      os.Readlink (os.MkdirAll w dir perm).1 path = .ok target
  symlink_keeps_readlink : ∀ (w : σ) (oldname newname path target : String),
    os.Readlink w path = .ok target →
      os.Readlink (os.Symlink w oldname newname).1 path = .ok target
  mkdirAll_dir : ∀ (w : σ) (dir : String) (perm : Nat) (path : String) (info : FileInfo),
    os.Lstat w path = .ok info → info.IsDir = true →
      ∃ info', os.Lstat (os.MkdirAll w dir perm).1 path = .ok info' ∧ info'.IsDir = true
  symlink_dir : ∀ (w : σ) (oldname newname path : String) (info : FileInfo),
    os.Lstat w path = .ok info → info.IsDir = true →
      ∃ info', os.Lstat (os.Symlink w oldname newname).1 path = .ok info' ∧ info'.IsDir = true

/-- The table file system on a machine where no directory can be created:
`MkdirAll` fails with a permission error. -/
def readOnlyOS : OS Disk :=
  { diskOS with
    MkdirAll := fun d _ _ => (d, some (.other "mkdir /dst: permission denied")) }

/-- A source tree with the three required entries and a library next to the
executable whose name starts like the folder `zone`; the target directory is
empty. -/
def sourceDisk : Disk :=
  [("/src", .dir 0o755),
   ("/src/main", .dir 0o755),
   ("/src/main/fileSysCheck.cfg", .file 0o644 120),
   ("/src/zone", .dir 0o755),
   ("/src/zone/common.ff", .file 0o644 1000),
   ("/src/iw6mp64_ship.exe", .file 0o755 5000),
   ("/src/zonetool.dll", .file 0o644 300),
   ("/src/tool.dll", .file 0o111 10),
   ("/dst", .dir 0o755)]

/-- The same source tree with a target that already holds a directory `zone`. -/
def sourceDiskWithZoneDir : Disk :=
  sourceDisk ++ [("/dst/zone", .dir 0o755)]

/-- The same source tree without a target directory. -/
def sourceDiskNoTarget : Disk :=
  sourceDisk.filter (fun entry => entry.1 != "/dst")

/-- The state `sourceDisk` after a symlink deployment of the three required
entries: the folders `main` and `zone` and the executable are linked. -/
def linkedDisk : Disk :=
  sourceDisk ++
    [("/dst/main", .link "/src/main"),
     ("/dst/zone", .link "/src/zone"),
     ("/dst/iw6mp64_ship.exe", .link "/src/iw6mp64_ship.exe")]

/-- State `w'` keeps every symlink and every directory of state `w`. -/
def Keeps {σ : Type} (os : OS σ) (w w' : σ) : Prop :=
  (∀ path target, os.Readlink w path = .ok target → os.Readlink w' path = .ok target)
  ∧ (∀ path info, os.Lstat w path = .ok info → info.IsDir = true →
      ∃ info', os.Lstat w' path = .ok info' ∧ info'.IsDir = true)

/-- Every deployment call on record is a symlink call that succeeded: no path
was copied and no symlink failed. -/
def allSymlinked (ops : List Op) : Bool :=
  ops.all fun op =>
    match op with
    | .symlink _ true => true
    | _ => false

/-- In state `w` the loop body of `main` in symlink mode skips `relPath`: its
deployment unit is chosen without error and is already linked. -/
def Settled {σ : Type} (os : OS σ) (cfg : Paths) (sourceFs targetFs : fileSystem) (w : σ)
    (relPath : String) : Prop :=
  ∃ unit dir, selectUnit os cfg targetFs w relPath (Dir relPath) = .ok (unit, dir)
    ∧ alreadyLinked os sourceFs targetFs w unit = true

/-! ## Theorems -/

theorem EqualFold_refl (f : Char → Char) (s : String) : EqualFold f s s = true := by
  simp [EqualFold]

theorem EqualFold_symm (f : Char → Char) (s t : String) : EqualFold f s t = EqualFold f t s := by
  simp only [EqualFold]
  exact decide_eq_decide.mpr ⟨fun e => e.symm, fun e => e.symm⟩

theorem EqualFold_trans (f : Char → Char) {s t u : String} (h₁ : EqualFold f s t = true)
    (h₂ : EqualFold f t u = true) : EqualFold f s u = true := by
  simp only [EqualFold, decide_eq_true_eq] at *
  exact h₁.trans h₂

theorem cutAt_snd (sep : Char) (l : List Char) (hl : sep ∈ l) :
    (cutAt sep l).2 = some (l.dropWhile (fun c => c != sep)).tail := by
  induction l with
  | nil => simp at hl
  | cons c cs ih =>
    by_cases hc : c = sep
    · simp [cutAt, hc]
    · have hin : sep ∈ cs := by
        rcases List.mem_cons.mp hl with h | h
        · exact absurd h.symm hc
        · exact h
      have := ih hin
      simp only [cutAt, hc, if_false]
      rw [List.dropWhile_cons_of_pos (by simpa using hc)]
      exact this

theorem SplitN2_second (s : String) (hs : ':' ∈ s.data) :
    (SplitN2 s)[1]? = some (libraryOf s) := by
  have h := cutAt_snd ':' s.data hs
  unfold SplitN2 libraryOf
  rcases hc : cutAt ':' s.data with ⟨before, rest⟩
  rw [hc] at h
  simp only at h
  subst h
  rfl

theorem keepFirstFold_subset (f : Char → Char) (l : List String) :
    ∀ x ∈ keepFirstFold f l, x ∈ l := by
  induction l with
  | nil => simp [keepFirstFold]
  | cons a as ih =>
    intro x hx
    simp only [keepFirstFold, List.mem_cons, List.mem_filter] at hx
    rcases hx with rfl | ⟨hx, _⟩
    · exact List.mem_cons_self _ _
    · exact List.mem_cons_of_mem _ (ih x hx)

theorem keepFirstFold_pairwise (f : Char → Char) (l : List String) :
    (keepFirstFold f l).Pairwise (fun a b => EqualFold f a b = false ∧ EqualFold f b a = false) := by
  induction l with
  | nil => simp [keepFirstFold]
  | cons a as ih =>
    simp only [keepFirstFold]
    refine List.Pairwise.cons ?_ (ih.filter _)
    intro y hy
    have hy2 := (List.mem_filter.mp hy).2
    have hay : EqualFold f a y = false := by simpa using hy2
    exact ⟨hay, by rw [EqualFold_symm]; exact hay⟩

theorem any_EqualFold_congr (f : Char → Char) (acc : List String) {x y : String}
    (hxy : EqualFold f x y = true) :
    acc.any (fun included => EqualFold f included y)
      = acc.any (fun included => EqualFold f included x) := by
  have key : ∀ a : String, EqualFold f a y = EqualFold f a x := by
    intro a
    cases hax : EqualFold f a x with
    | true => exact EqualFold_trans f hax hxy
    | false =>
      cases hay : EqualFold f a y with
      | false => rfl
      | true =>
        have hyx : EqualFold f y x = true := by rw [EqualFold_symm]; exact hxy
        rw [EqualFold_trans f hay hyx] at hax
        exact absurd hax (by simp)
  simp only [key]

theorem symbolsLoop_eq (h : Host) (cfg : Paths) (symbols : List String)
    (hs : ∀ s ∈ symbols, ':' ∈ s.data) (acc : List String) :
    symbolsLoop h cfg symbols acc
      = .ok (acc ++ (referenceImports h.foldRune cfg.windowsFiles symbols).filter
          (fun y => !acc.any (fun included => EqualFold h.foldRune included y))) := by
  induction symbols generalizing acc with
  | nil => simp [symbolsLoop, referenceImports, keepFirstFold]
  | cons s rest ih =>
    have hrest : ∀ t ∈ rest, ':' ∈ t.data := fun t ht => hs t (List.mem_cons_of_mem _ ht)
    have hsplit := SplitN2_second s (hs s (List.mem_cons_self _ _))
    simp only [symbolsLoop, hsplit]
    set x := libraryOf s with hx
    -- filtering by `acc` absorbs filtering by anything `acc` already covers
    have absorb : ∀ (l : List String),
        acc.any (fun included => EqualFold h.foldRune included x) = true →
        (l.filter (fun y => !EqualFold h.foldRune x y)).filter
            (fun y => !acc.any (fun included => EqualFold h.foldRune included y))
          = l.filter (fun y => !acc.any (fun included => EqualFold h.foldRune included y)) := by
      intro l hacc
      rw [List.filter_filter]
      apply List.filter_congr
      intro y _
      cases hxy : EqualFold h.foldRune x y with
      | false => simp
      | true =>
        rw [any_EqualFold_congr h.foldRune acc hxy, hacc]
        simp
    by_cases hacc : acc.any (fun included => EqualFold h.foldRune included x) = true
    · rw [if_pos hacc, ih hrest acc]
      congr 2
      by_cases hex : cfg.windowsFiles.any (fun e => EqualFold h.foldRune e x) = true
      · simp [referenceImports, List.filter_cons, hex, ← hx]
      · have hex2 : cfg.windowsFiles.any (fun e => EqualFold h.foldRune e x) = false := by
          simpa using hex
        simp only [referenceImports, List.map_cons, List.filter_cons, ← hx, hex2,
          Bool.not_false, if_true, keepFirstFold, hacc, Bool.not_true, Bool.false_eq_true,
          if_false]
        exact (absorb _ hacc).symm
    · rw [if_neg hacc]
      have hacc2 : acc.any (fun included => EqualFold h.foldRune included x) = false := by
        simpa using hacc
      by_cases hex : cfg.windowsFiles.any (fun e => EqualFold h.foldRune e x) = true
      · rw [if_pos hex, ih hrest acc]
        simp [referenceImports, List.filter_cons, hex, ← hx]
      · rw [if_neg hex, ih hrest (acc ++ [x])]
        have hex2 : cfg.windowsFiles.any (fun e => EqualFold h.foldRune e x) = false := by
          simpa using hex
        simp only [referenceImports, List.map_cons, List.filter_cons, ← hx, hex2,
          Bool.not_false, if_true, keepFirstFold, hacc2, List.append_assoc,
          List.singleton_append]
        congr 3
        rw [List.filter_filter]
        apply List.filter_congr
        intro y _
        simp [List.any_append, Bool.and_comm]

/-- C5: for symbols of the form `name:library`, `GetImportedLibrariesOfPEFile`
returns the reference list: the library names after the first colon, without
those equal ignoring case to an entry of the exclusion list, each kept at its
first occurrence under case-insensitive equality.  Hence no two entries of the
result are equal ignoring case and no entry equals an excluded name ignoring
case. -/
theorem GetImportedLibrariesOfPEFile_eq_reference (h : Host) (cfg : Paths) (fs : fileSystem)
    (path : String) (symbols : List String)
    (hrel : IsAbs path = false)
    (hsym : h.ImportedSymbols (fs.FullPath path) = .ok symbols)
    (hform : ∀ s ∈ symbols, ':' ∈ s.data) :
    fs.GetImportedLibrariesOfPEFile h cfg path
        = .ok (.ok (referenceImports h.foldRune cfg.windowsFiles symbols))
      ∧ (referenceImports h.foldRune cfg.windowsFiles symbols).Pairwise
          (fun a b => EqualFold h.foldRune a b = false ∧ EqualFold h.foldRune b a = false)
      ∧ ∀ lib ∈ referenceImports h.foldRune cfg.windowsFiles symbols,
          ∀ e ∈ cfg.windowsFiles,
            EqualFold h.foldRune e lib = false ∧ EqualFold h.foldRune lib e = false := by
  refine ⟨?_, keepFirstFold_pairwise _ _, ?_⟩
  · unfold fileSystem.GetImportedLibrariesOfPEFile
    rw [hrel, hsym]
    simp only [Bool.false_eq_true, if_false]
    rw [symbolsLoop_eq h cfg symbols hform []]
    simp
  · intro lib hlib e he
    have hmem := keepFirstFold_subset _ _ lib hlib
    have hnot := (List.mem_filter.mp hmem).2
    have hall : cfg.windowsFiles.any (fun e => EqualFold h.foldRune e lib) = false := by
      simpa using hnot
    have hel : EqualFold h.foldRune e lib = false := by
      have := List.any_eq_false.mp hall e he
      simpa using this
    exact ⟨hel, by rw [EqualFold_symm]; exact hel⟩

/-- C5, at a concrete input: the executable of the scenario imports from
`user32.dll` in two casings and from `mydll.dll`; the result is `mydll.dll`
alone. -/
theorem GetImportedLibrariesOfPEFile_eq_reference_witness :
    (IsAbs "iw6mp64_ship.exe" = false
      ∧ (scenarioHost true).ImportedSymbols (srcFs.FullPath "iw6mp64_ship.exe")
          = .ok ["MessageBoxA:user32.dll", "Init:mydll.dll", "GetDC:USER32.DLL"]
      ∧ ∀ s ∈ ["MessageBoxA:user32.dll", "Init:mydll.dll", "GetDC:USER32.DLL"], ':' ∈ s.data)
    ∧ referenceImports asciiFold paths.windowsFiles
          ["MessageBoxA:user32.dll", "Init:mydll.dll", "GetDC:USER32.DLL"] = ["mydll.dll"]
    ∧ srcFs.GetImportedLibrariesOfPEFile (scenarioHost true) paths "iw6mp64_ship.exe"
        = .ok (.ok (referenceImports (scenarioHost true).foldRune paths.windowsFiles
            ["MessageBoxA:user32.dll", "Init:mydll.dll", "GetDC:USER32.DLL"])) :=
  ⟨⟨by decide, by rfl, by decide⟩, by decide,
    (GetImportedLibrariesOfPEFile_eq_reference (scenarioHost true) paths srcFs
      "iw6mp64_ship.exe" ["MessageBoxA:user32.dll", "Init:mydll.dll", "GetDC:USER32.DLL"]
      (by decide) (by rfl) (by decide)).1⟩

/-- C1, at the failing input: the executable matches and its imports are all
verified, then `main/fileSysCheck.cfg` matches no path; at every recursion bound
that lets the call return, `CheckGlobWhitelist` names that pattern in
`mismatchedPattern` but returns `ok = true`, left set by the recursive call. -/
theorem CheckGlobWhitelist_ok_after_verified_exe :
    noCfgHost.Glob (srcFs.FullPath "iw6mp64_ship.exe") = .ok ["/src/iw6mp64_ship.exe"]
    ∧ srcFs.GetImportedLibrariesOfPEFile noCfgHost paths "iw6mp64_ship.exe" = .ok (.ok [])
    ∧ noCfgHost.Glob (srcFs.FullPath "main/fileSysCheck.cfg") = .ok []
    ∧ ∀ depth : Nat,
        srcFs.CheckGlobWhitelist noCfgHost paths (depth + 2)
            ["iw6mp64_ship.exe", "main/fileSysCheck.cfg", "zone/**.ff"]
          = some (.ok { ok := true, mismatchedPattern := "main/fileSysCheck.cfg",
                        allCheckedPaths := ["iw6mp64_ship.exe"], err := none }) := by
  refine ⟨by rfl, by rfl, by rfl, ?_⟩
  intro depth
  rfl

/-- C2, at the failing input: the executable parses and imports from
`helper.exe`, present and with no imports of its own, and then from
`mydll.dll`, which matches no path; `CheckGlobWhitelist` on the configured
patterns names `mydll.dll` in `mismatchedPattern` but returns `ok = true`. -/
theorem CheckGlobWhitelist_ok_despite_missing_import :
    srcFs.GetImportedLibrariesOfPEFile helperHost paths "iw6mp64_ship.exe"
        = .ok (.ok ["helper.exe", "mydll.dll"])
    ∧ helperHost.Glob (srcFs.FullPath "helper.exe") = .ok ["/src/helper.exe"]
    ∧ srcFs.GetImportedLibrariesOfPEFile helperHost paths "helper.exe" = .ok (.ok [])
    ∧ helperHost.Glob (srcFs.FullPath "mydll.dll") = .ok []
    ∧ ∀ depth : Nat,
        srcFs.CheckGlobWhitelist helperHost paths (depth + 3) paths.requiredFiles
          = some (.ok { ok := true, mismatchedPattern := "mydll.dll",
                        allCheckedPaths :=
                          ["main/fileSysCheck.cfg", "zone/common.ff", "zone/mp.ff",
                           "iw6mp64_ship.exe", "helper.exe"],
                        err := none }) := by
  refine ⟨by rfl, by rfl, by rfl, by rfl, ?_⟩
  intro depth
  rfl

/-- C3, at the failing input: `CheckGlobWhitelist` returns `ok = true` and no
error with the executable as the only verified path, while the concatenation
over the patterns also holds the two zone files matched by the last pattern. -/
theorem CheckGlobWhitelist_ok_with_truncated_paths :
    (∀ depth : Nat,
        srcFs.CheckGlobWhitelist noCfgHost paths (depth + 2)
            ["iw6mp64_ship.exe", "main/fileSysCheck.cfg", "zone/**.ff"]
          = some (.ok { ok := true, mismatchedPattern := "main/fileSysCheck.cfg",
                        allCheckedPaths := ["iw6mp64_ship.exe"], err := none }))
    ∧ ∀ depth : Nat,
        verifiedClosure noCfgHost paths srcFs (depth + 2)
            ["iw6mp64_ship.exe", "main/fileSysCheck.cfg", "zone/**.ff"]
          = ["iw6mp64_ship.exe", "zone/common.ff", "zone/mp.ff"] := by
  refine ⟨?_, ?_⟩
  · intro depth
    rfl
  · intro depth
    rfl

/-- The first scenario of the specification: `mydll.dll` is absent and
validation fails on it. -/
theorem scenario_missing_dll :
    ∀ depth : Nat,
      srcFs.CheckGlobWhitelist (scenarioHost false) paths (depth + 2) paths.requiredFiles
        = some (.ok { ok := false, mismatchedPattern := "mydll.dll",
                      allCheckedPaths :=
                        ["main/fileSysCheck.cfg", "zone/common.ff", "zone/mp.ff",
                         "iw6mp64_ship.exe"],
                      err := none }) := by
  intro depth
  rfl

/-- The second scenario of the specification: `mydll.dll` is present and
validation succeeds with five verified paths, which are the concatenation the
specification describes. -/
theorem scenario_present_dll :
    ∀ depth : Nat,
      srcFs.CheckGlobWhitelist (scenarioHost true) paths (depth + 2) paths.requiredFiles
          = some (.ok { ok := true, mismatchedPattern := "",
                        allCheckedPaths :=
                          ["main/fileSysCheck.cfg", "zone/common.ff", "zone/mp.ff",
                           "iw6mp64_ship.exe", "mydll.dll"],
                        err := none })
        ∧ verifiedClosure (scenarioHost true) paths srcFs (depth + 2) paths.requiredFiles
          = ["main/fileSysCheck.cfg", "zone/common.ff", "zone/mp.ff",
             "iw6mp64_ship.exe", "mydll.dll"] := by
  intro depth
  exact ⟨rfl, rfl⟩

theorem matchedLoop_next (h : Host) (cfg : Paths) (fs : fileSystem)
    (call : List String → Option (Except Abort Results)) (importsOk : List String → Bool)
    (hcall : ∀ libs, importsOk libs = true →
      ∃ sub, call libs = some (.ok sub) ∧ sub.ok = true ∧ sub.err = none)
    (matchedPaths : List String) :
    ∀ r : Results, r.err = none →
      matchedPaths.all (matchResolvable h cfg fs importsOk) = true →
      ∃ r', matchedLoop h cfg fs call matchedPaths r = some (.next r') ∧ r'.err = none ∧
        r.allCheckedPaths.length + matchedPaths.length ≤ r'.allCheckedPaths.length := by
  induction matchedPaths with
  | nil =>
    intro r hr _
    exact ⟨r, rfl, hr, by simp⟩
  | cons m rest ih =>
    intro r _ hall
    rw [List.all_cons, Bool.and_eq_true] at hall
    obtain ⟨hm, hrest⟩ := hall
    unfold matchResolvable at hm
    cases hrel : h.Rel fs.baseDir m with
    | error e => rw [hrel] at hm; exact absurd hm (by simp)
    | ok relPath =>
      rw [hrel] at hm
      simp only at hm
      by_cases hexe : isExe h m = true
      · rw [if_pos hexe] at hm
        cases himp : fs.GetImportedLibrariesOfPEFile h cfg relPath with
        | error a => rw [himp] at hm; exact absurd hm (by simp)
        | ok inner =>
          cases inner with
          | error e => rw [himp] at hm; exact absurd hm (by simp)
          | ok libs =>
            rw [himp] at hm
            simp only at hm
            obtain ⟨sub, hsub, hok, herr⟩ := hcall libs hm
            obtain ⟨r', hr', herr', hlen⟩ :=
              ih { ok := sub.ok, mismatchedPattern := sub.mismatchedPattern,
                   allCheckedPaths := (r.allCheckedPaths ++ [relPath]) ++ sub.allCheckedPaths,
                   err := sub.err } herr hrest
            refine ⟨r', ?_, herr', ?_⟩
            · have hexe' : EqualFold h.foldRune (Ext m) ".exe" = true := hexe
              simp only [matchedLoop, hrel, hexe', if_true, himp, hsub, hok, herr]
              simpa [hok, herr] using hr'
            · simp only [List.length_append, List.length_cons, List.length_nil] at hlen ⊢
              omega
      · rw [if_neg hexe] at hm
        obtain ⟨r', hr', herr', hlen⟩ :=
          ih { r with err := none, allCheckedPaths := r.allCheckedPaths ++ [relPath] } rfl hrest
        refine ⟨r', ?_, herr', ?_⟩
        · have hexe' : ¬ EqualFold h.foldRune (Ext m) ".exe" = true := hexe
          simp only [matchedLoop, hrel, hexe', if_false]
          exact hr'
        · simp only [List.length_append, List.length_cons, List.length_nil] at hlen ⊢
          omega

theorem patternLoop_ok (h : Host) (cfg : Paths) (fs : fileSystem)
    (call : List String → Option (Except Abort Results)) (importsOk : List String → Bool)
    (hcall : ∀ libs, importsOk libs = true →
      ∃ sub, call libs = some (.ok sub) ∧ sub.ok = true ∧ sub.err = none)
    (patterns : List String) :
    ∀ r : Results, r.err = none →
      patterns.all (patternResolvable h cfg fs importsOk) = true →
      ∃ r', patternLoop h cfg fs call patterns r = some (.ok r') ∧ r'.ok = true ∧
        r'.err = none ∧
        r.allCheckedPaths.length + patterns.length ≤ r'.allCheckedPaths.length := by
  induction patterns with
  | nil =>
    intro r hr _
    exact ⟨{ r with ok := true }, rfl, rfl, hr, by simp⟩
  | cons p rest ih =>
    intro r _ hall
    rw [List.all_cons, Bool.and_eq_true] at hall
    obtain ⟨hp, hrest⟩ := hall
    unfold patternResolvable at hp
    cases hglob : h.Glob (fs.FullPath p) with
    | error e => rw [hglob] at hp; exact absurd hp (by simp)
    | ok ms =>
      rw [hglob] at hp
      simp only [Bool.and_eq_true, Bool.not_eq_true', List.isEmpty_eq_false] at hp
      obtain ⟨hne, hms⟩ := hp
      have hlen : ¬ ms.length ≤ 0 := by
        cases ms with
        | nil => exact absurd rfl hne
        | cons a as => simp
      have hpos : 1 ≤ ms.length := by omega
      obtain ⟨r₂, hr₂, herr₂, hlen₂⟩ :=
        matchedLoop_next h cfg fs call importsOk hcall ms { r with err := none } rfl hms
      obtain ⟨r', hr', hok', herr', hlen'⟩ := ih r₂ herr₂ hrest
      refine ⟨r', ?_, hok', herr', ?_⟩
      · simp only [patternLoop, hglob, hlen, if_false, hr₂]
        exact hr'
      · simp only [List.length_cons] at hlen₂ hlen' ⊢
        omega

/-- C4, amended: when every pattern matches at least one path and every matched
executable parses and has all of its transitive imports resolvable, with
executables importing executables nested at most `depth` levels deep, then
`CheckGlobWhitelist` returns at every recursion bound from `depth` on, with
`ok = true`, no error, and at least as many verified paths as patterns. -/
theorem CheckGlobWhitelist_success (h : Host) (cfg : Paths) (fs : fileSystem) (depth : Nat) :
    ∀ requiredFiles : List String,
      resolvableWithin h cfg fs depth requiredFiles = true →
      ∀ extra : Nat, ∃ r,
        fs.CheckGlobWhitelist h cfg (depth + extra) requiredFiles = some (.ok r) ∧
        r.ok = true ∧ r.err = none ∧ requiredFiles.length ≤ r.allCheckedPaths.length := by
  induction depth with
  | zero =>
    intro requiredFiles hres
    simp [resolvableWithin] at hres
  | succ d ih =>
    intro requiredFiles hres extra
    have hsucc : d + 1 + extra = (d + extra) + 1 := by omega
    rw [hsucc]
    simp only [resolvableWithin] at hres
    have hcall : ∀ libs, resolvableWithin h cfg fs d libs = true →
        ∃ sub, fs.CheckGlobWhitelist h cfg (d + extra) libs = some (.ok sub) ∧
          sub.ok = true ∧ sub.err = none := by
      intro libs hl
      obtain ⟨sub, h1, h2, h3, _⟩ := ih libs hl extra
      exact ⟨sub, h1, h2, h3⟩
    obtain ⟨r', hr', hok', herr', hlen'⟩ :=
      patternLoop_ok h cfg fs _ _ hcall requiredFiles Results.zero rfl hres
    refine ⟨r', ?_, hok', herr', ?_⟩
    · simp only [fileSystem.CheckGlobWhitelist]
      exact hr'
    · simpa [Results.zero] using hlen'

/-- C4, at a concrete input: the scenario of the specification with `mydll.dll`
present is resolvable within two levels. -/
theorem CheckGlobWhitelist_success_witness :
    resolvableWithin (scenarioHost true) paths srcFs 2 paths.requiredFiles = true
    ∧ ∀ extra : Nat, ∃ r,
        srcFs.CheckGlobWhitelist (scenarioHost true) paths (2 + extra) paths.requiredFiles
          = some (.ok r) ∧
        r.ok = true ∧ r.err = none ∧ paths.requiredFiles.length ≤ r.allCheckedPaths.length :=
  ⟨by rfl,
    CheckGlobWhitelist_success (scenarioHost true) paths srcFs 2 paths.requiredFiles (by rfl)⟩

theorem matchedLoop_none_of_call_none (h : Host) (cfg : Paths) (fs : fileSystem)
    (call : List String → Option (Except Abort Results)) (m relPath : String)
    (rest libs : List String) (r : Results)
    (hrel : h.Rel fs.baseDir m = .ok relPath)
    (hexe : EqualFold h.foldRune (Ext m) ".exe" = true)
    (himp : fs.GetImportedLibrariesOfPEFile h cfg relPath = .ok (.ok libs))
    (hcall : call libs = none) :
    matchedLoop h cfg fs call (m :: rest) r = none := by
  simp only [matchedLoop, hrel, hexe, if_true, himp, hcall]

theorem patternLoop_none_of_matched_none (h : Host) (cfg : Paths) (fs : fileSystem)
    (call : List String → Option (Except Abort Results)) (p m : String)
    (rest ms : List String) (r : Results)
    (hglob : h.Glob (fs.FullPath p) = .ok (m :: ms))
    (hloop : matchedLoop h cfg fs call (m :: ms) { r with err := none } = none) :
    patternLoop h cfg fs call (p :: rest) r = none := by
  simp [patternLoop, hglob, hloop]

theorem selfImport_reaches (q : String)
    (hq : Reaches selfImportHost paths srcFs ["a.exe"] q) : q = "a.exe" := by
  induction hq with
  | top hmem => simpa using hmem
  | @imported p q matchedPath relPath matchedPaths importedLibraries _ hglob hm hrel _ himp hq ih =>
    subst ih
    have hG : selfImportHost.Glob (srcFs.FullPath "a.exe") = .ok ["/src/a.exe"] := rfl
    rw [hG] at hglob
    have hms : matchedPaths = ["/src/a.exe"] := by injection hglob with e; exact e.symm
    subst hms
    have hmp : matchedPath = "/src/a.exe" := by simpa using hm
    subst hmp
    have hR : selfImportHost.Rel srcFs.baseDir "/src/a.exe" = .ok "a.exe" := rfl
    rw [hR] at hrel
    have hrp : relPath = "a.exe" := by injection hrel with e; exact e.symm
    subst hrp
    have hI : srcFs.GetImportedLibrariesOfPEFile selfImportHost paths "a.exe"
        = .ok (.ok ["a.exe"]) := rfl
    rw [hI] at himp
    have hl : importedLibraries = ["a.exe"] := by
      injection himp with e
      injection e with e'
      exact e'.symm
    subst hl
    simpa using hq

/-- C4, counterexample: in a source tree whose one executable `a.exe` imports
from itself, the pattern matches, the executable parses and every
transitive import is resolvable, yet `CheckGlobWhitelist` returns at no
recursion bound. -/
theorem CheckGlobWhitelist_self_import_never_returns :
    AllResolvable selfImportHost paths srcFs ["a.exe"]
    ∧ ∀ depth : Nat, srcFs.CheckGlobWhitelist selfImportHost paths depth ["a.exe"] = none := by
  refine ⟨?_, ?_⟩
  · intro q hq
    rw [selfImport_reaches q hq]
    refine ⟨["/src/a.exe"], rfl, by simp, ?_⟩
    intro m hm
    have hmp : m = "/src/a.exe" := by simpa using hm
    subst hmp
    exact ⟨"a.exe", rfl, fun _ => ⟨["a.exe"], rfl⟩⟩
  · intro depth
    induction depth with
    | zero => rfl
    | succ d ih =>
      simp only [fileSystem.CheckGlobWhitelist]
      apply patternLoop_none_of_matched_none selfImportHost paths srcFs _ "a.exe" "/src/a.exe"
        [] [] Results.zero rfl
      exact matchedLoop_none_of_call_none selfImportHost paths srcFs _ "/src/a.exe" "a.exe"
        [] ["a.exe"] _ rfl (by decide) rfl ih

theorem HasPrefix_iff (s pre : String) :
    HasPrefix s pre = true ↔ ∃ t, s.data = pre.data ++ t := by
  unfold HasPrefix
  rw [List.isPrefixOf_iff_prefix]
  constructor
  · rintro ⟨t, ht⟩
    exact ⟨t, ht.symm⟩
  · rintro ⟨t, ht⟩
    exact ⟨t, ht.symm⟩

theorem promote_configured (relPath dirPath F : String)
    (hF : F ∈ paths.symlinkableFolderPaths) (hunder : liesUnder relPath F = true) :
    promote relPath dirPath paths.symlinkableFolderPaths = (F, Dir F) := by
  have hcases : F = "APEX" ∨ F = "main" ∨ F = "zone" := by
    simpa [paths] using hF
  have hA : Clean "APEX" = "APEX" := by decide
  have hM : Clean "main" = "main" := by decide
  have hZ : Clean "zone" = "zone" := by decide
  unfold liesUnder at hunder
  rw [Bool.or_eq_true, decide_eq_true_eq] at hunder
  simp only [paths, promote, hA, hM, hZ]
  rcases hcases with rfl | rfl | rfl
  · have h1 : HasPrefix (Clean relPath) "APEX" = true := by
      rcases hunder with h | h
      · rw [h]; decide
      · obtain ⟨t, ht⟩ := (HasPrefix_iff _ _).mp h
        exact (HasPrefix_iff _ _).mpr ⟨'/' :: t, by rw [ht]; rfl⟩
    simp [h1]
  · have h0 : HasPrefix (Clean relPath) "APEX" = false := by
      rcases hunder with h | h
      · rw [h]; decide
      · obtain ⟨t, ht⟩ := (HasPrefix_iff _ _).mp h
        unfold HasPrefix
        rw [ht]
        rfl
    have h1 : HasPrefix (Clean relPath) "main" = true := by
      rcases hunder with h | h
      · rw [h]; decide
      · obtain ⟨t, ht⟩ := (HasPrefix_iff _ _).mp h
        exact (HasPrefix_iff _ _).mpr ⟨'/' :: t, by rw [ht]; rfl⟩
    simp [h0, h1]
  · have h0 : HasPrefix (Clean relPath) "APEX" = false := by
      rcases hunder with h | h
      · rw [h]; decide
      · obtain ⟨t, ht⟩ := (HasPrefix_iff _ _).mp h
        unfold HasPrefix
        rw [ht]
        rfl
    have h0' : HasPrefix (Clean relPath) "main" = false := by
      rcases hunder with h | h
      · rw [h]; decide
      · obtain ⟨t, ht⟩ := (HasPrefix_iff _ _).mp h
        unfold HasPrefix
        rw [ht]
        rfl
    have h1 : HasPrefix (Clean relPath) "zone" = true := by
      rcases hunder with h | h
      · rw [h]; decide
      · obtain ⟨t, ht⟩ := (HasPrefix_iff _ _).mp h
        exact (HasPrefix_iff _ _).mpr ⟨'/' :: t, by rw [ht]; rfl⟩
    simp [h0, h0', h1]

/-- C7: in symlink mode, for a path lying under a configured symlinkable folder
`F`, the folder loop of `main` makes `F` the deployment unit and the parent of
`F` its parent directory; the check of the target with `Lstat` then reverts to
the original path and its original parent when the target holds a real
directory at `F`, and keeps `F` when `Lstat` reports something other than a
directory or reports that nothing exists there. -/
theorem selectUnit_promotion_with_guard {σ : Type} (os : OS σ) (targetFs : fileSystem) (w : σ)
    (relPath F : String)
    (hF : F ∈ paths.symlinkableFolderPaths) (hunder : liesUnder relPath F = true) :
    promote relPath (Dir relPath) paths.symlinkableFolderPaths = (F, Dir F)
    ∧ (∀ info, targetFs.Lstat os w F = .ok info → info.IsDir = true →
        selectUnit os paths targetFs w relPath (Dir relPath) = .ok (relPath, Dir relPath))
    ∧ (∀ info, targetFs.Lstat os w F = .ok info → info.IsDir = false →
        selectUnit os paths targetFs w relPath (Dir relPath) = .ok (F, Dir F))
    ∧ (∀ err, targetFs.Lstat os w F = .error err → IsNotExist err = true →
        selectUnit os paths targetFs w relPath (Dir relPath) = .ok (F, Dir F)) := by
  have hp := promote_configured relPath (Dir relPath) F hF hunder
  refine ⟨hp, ?_, ?_, ?_⟩
  · intro info hl hd
    simp [selectUnit, hp, hl, hd]
  · intro info hl hd
    simp [selectUnit, hp, hl, hd]
  · intro err hl he
    simp [selectUnit, hp, hl, he]

/-- C7, at the concrete input of the claim: folder `zone` and path
`zone/common.ff` give the unit `zone` with parent `.` on an empty target, and
the unit `zone/common.ff` with parent `zone` when the target holds a real
directory `zone`. -/
theorem selectUnit_promotion_with_guard_witness :
    ("zone" ∈ paths.symlinkableFolderPaths ∧ liesUnder "zone/common.ff" "zone" = true)
    ∧ selectUnit diskOS paths dstFs sourceDisk "zone/common.ff" (Dir "zone/common.ff")
        = .ok ("zone", ".")
    ∧ selectUnit diskOS paths dstFs sourceDiskWithZoneDir "zone/common.ff"
        (Dir "zone/common.ff") = .ok ("zone/common.ff", "zone") :=
  ⟨⟨by decide, by decide⟩,
    (selectUnit_promotion_with_guard diskOS dstFs sourceDisk "zone/common.ff" "zone"
      (by decide) (by decide)).2.2.2 .notExist (by rfl) (by rfl),
    (selectUnit_promotion_with_guard diskOS dstFs sourceDiskWithZoneDir "zone/common.ff" "zone"
      (by decide) (by decide)).2.1 (Node.dir 0o755).info (by rfl) (by decide)⟩

/-- C8, at the failing input: `zonetool.dll` does not lie under the folder
`zone`, yet the folder loop of `main` replaces it by `zone`; in symlink mode the
folder is linked and the library itself is not deployed. -/
theorem promote_path_sharing_folder_name :
    liesUnder "zonetool.dll" "zone" = false
    ∧ promote "zonetool.dll" (Dir "zonetool.dll") paths.symlinkableFolderPaths = ("zone", ".")
    ∧ deployDisk ⟨true, false⟩ ["zonetool.dll"] sourceDisk
        = .allOk ⟨sourceDisk ++ [("/dst/zone", .link "/src/zone")], 4096,
            [.symlink "zone" true]⟩ := by
  refine ⟨by decide, by decide, by rfl⟩

/-- C10, at the failing input: the target directory cannot be created.  In the
symlink branch and in the copy branch alike `main` leaves through a bare
`return`: nothing is logged and the exit status is 0, whereas a failed source
`Stat` ends in `log.Fatal` with status 1. -/
theorem deployLoop_mkdir_error_returns_silently :
    (readOnlyOS.MkdirAll sourceDiskNoTarget "/dst" 0o755).2
        = some (.other "mkdir /dst: permission denied")
    ∧ deployLoop readOnlyOS paths ⟨true, false⟩ srcFs dstFs ["main/fileSysCheck.cfg"]
          ⟨sourceDiskNoTarget, 0, []⟩
        = .returned ⟨sourceDiskNoTarget, 0, []⟩
    ∧ deployLoop readOnlyOS paths ⟨false, false⟩ srcFs dstFs ["iw6mp64_ship.exe"]
          ⟨sourceDiskNoTarget, 0, []⟩
        = .returned ⟨sourceDiskNoTarget, 0, []⟩
    ∧ (Exit.returned (⟨sourceDiskNoTarget, 0, []⟩ : Progress Disk)).status = 0
    ∧ (Exit.returned (⟨sourceDiskNoTarget, 0, []⟩ : Progress Disk)).lastLog = none
    ∧ deployLoop readOnlyOS paths ⟨false, false⟩ srcFs dstFs ["absent.cfg"]
          ⟨sourceDiskNoTarget, 0, []⟩
        = .fatal "no such file or directory" ⟨sourceDiskNoTarget, 0, []⟩
    ∧ (Exit.fatal "no such file or directory"
          (⟨sourceDiskNoTarget, 0, []⟩ : Progress Disk)).status = 1 := by
  refine ⟨by rfl, by rfl, by rfl, by rfl, by rfl, by rfl, by rfl⟩

/-- C6, at the failing input: a source file of mode 0111 has no read or write
bit, so `main` computes the copy mode `0111 & 0666 = 0` and passes it to
`CopyToFs`, where 0 stands for "use the permission bits of the source"; the
deployed file ends, after the final `Chmod`, with mode 0111, executable bits
included, against the comment `remove executable bit` of `main`. -/
theorem copy_keeps_exec_bits_of_mode_0111 :
    diskOS.Stat sourceDisk "/src/tool.dll" = .ok ⟨0o111, 10⟩
    ∧ deployDisk ⟨false, false⟩ ["tool.dll"] sourceDisk
        = .allOk ⟨sourceDisk ++ [("/dst/tool.dll", .file 0o111 10)], 10,
            [.copy "tool.dll" 0 true]⟩
    ∧ diskOS.Stat (sourceDisk ++ [("/dst/tool.dll", .file 0o111 10)]) "/dst/tool.dll"
        = .ok ⟨0o111, 10⟩
    ∧ (0o111 : Nat) &&& 0o111 ≠ 0 := by
  refine ⟨by rfl, by rfl, by rfl, by decide⟩

/-- C9, counterexample: the first symlink run over the three required entries
links every unit and ends with `totalSize` 13192; the second run over the
resulting state makes no deployment call and ends with `totalSize` 0. -/
theorem second_run_total_is_zero :
    deployDisk ⟨true, false⟩ ["main/fileSysCheck.cfg", "zone/common.ff", "iw6mp64_ship.exe"]
        sourceDisk
      = .allOk ⟨linkedDisk, 13192,
          [.symlink "main" true, .symlink "zone" true, .symlink "iw6mp64_ship.exe" true]⟩
    ∧ deployDisk ⟨true, false⟩ ["main/fileSysCheck.cfg", "zone/common.ff", "iw6mp64_ship.exe"]
        linkedDisk
      = .allOk ⟨linkedDisk, 0, []⟩
    ∧ (13192 : Nat) ≠ 0 := by
  refine ⟨by rfl, by rfl, by decide⟩

theorem testBit_666 (i : Nat) :
    (0o666 : Nat).testBit i = ((0o777 : Nat).testBit i && !(0o111 : Nat).testBit i) := by
  by_cases hi : i < 9
  · interval_cases i <;> decide
  · have hpow : (2 : Nat) ^ 9 ≤ 2 ^ i := Nat.pow_le_pow_right (by decide) (by omega)
    have h9 : (2 : Nat) ^ 9 = 512 := by decide
    rw [Nat.testBit_lt_two_pow (x := 0o666) (by omega),
      Nat.testBit_lt_two_pow (x := 0o777) (by omega)]
    rfl

theorem CopyToFs_chmod {σ : Type} (os : OS σ) (fs targetFs : fileSystem) (w w' : σ)
    (name : String) (mode : Nat) (hmode : mode ≠ 0)
    (hcopy : fs.CopyToFs os w name targetFs mode = (w', none)) :
    ∃ w₃, os.Chmod w₃ (targetFs.FullPath name) mode = (w', none) := by
  unfold fileSystem.CopyToFs at hcopy
  rcases h₁ : fs.OpenFile os w name .rdonly 0 with ⟨w₁, e₁⟩
  rw [h₁] at hcopy
  cases e₁ with
  | some e => simp at hcopy
  | none =>
    simp only [hmode, if_false] at hcopy
    rcases h₂ : targetFs.OpenFile os w₁ name .createWronly (mode ||| 0o100) with ⟨w₂, e₂⟩
    rw [h₂] at hcopy
    cases e₂ with
    | some e => simp at hcopy
    | none =>
      simp only at hcopy
      rcases h₃ : os.Copy w₂ (targetFs.FullPath name) (fs.FullPath name) with ⟨w₃, e₃⟩
      rw [h₃] at hcopy
      cases e₃ with
      | some e => simp at hcopy
      | none => exact ⟨w₃, hcopy⟩

/-- Outside the collision with mode 0 the copy branch does clear the executable
bits: for a source file whose mode has at least one read or write bit, a path
that goes through the copy branch of `main` without error ends, after the final
`Chmod` of `CopyToFs`, with permission bits equal to those of the source with
every executable bit cleared. -/
theorem copyBranch_clears_exec_bits {σ : Type} (os : OS σ) (hlaw : ChmodLaw os)
    (sourceFs targetFs : fileSystem) (relPath dirPath : String) (p p' : Progress σ)
    (info : FileInfo)
    (hstat : sourceFs.Stat os p.world relPath = .ok info)
    (hrw : info.Mode &&& 0o666 ≠ 0)
    (hrun : copyBranch os sourceFs targetFs relPath dirPath p = .next p') :
    ∃ info', targetFs.Stat os p'.world relPath = .ok info'
      ∧ Perm info'.Mode = info.Mode &&& 0o666
      ∧ Perm info'.Mode &&& 0o111 = 0
      ∧ ∀ i, (Perm info'.Mode).testBit i
          = ((Perm info.Mode).testBit i && !(0o111 : Nat).testBit i) := by
  unfold copyBranch at hrun
  rw [hstat] at hrun
  dsimp only at hrun
  rcases hmk : targetFs.MkdirAll os p.world dirPath (info.Mode ||| 0o700) with ⟨w₁, merr⟩
  rw [hmk] at hrun
  dsimp only at hrun
  by_cases hf : mkdirFailed merr = true
  · rw [if_pos hf] at hrun
    cases hrun
  · rw [if_neg hf] at hrun
    rcases hcp : sourceFs.CopyToFs os w₁ relPath targetFs (info.Mode &&& 0o666) with ⟨w₂, cerr⟩
    rw [hcp] at hrun
    cases cerr with
    | some e => cases hrun
    | none =>
      dsimp only at hrun
      have hp' : p'.world = w₂ := by
        injection hrun with hrun
        rw [← hrun]
      obtain ⟨w₃, hch⟩ := CopyToFs_chmod os sourceFs targetFs w₁ w₂ relPath _ hrw hcp
      obtain ⟨info', hst', hperm⟩ := hlaw w₃ w₂ _ _ hch
      have hmask : Perm (info.Mode &&& 0o666) = info.Mode &&& 0o666 := by
        unfold Perm
        rw [Nat.and_assoc]
        rfl
      have hP : Perm info'.Mode = info.Mode &&& 0o666 := by rw [hperm, hmask]
      refine ⟨info', ?_, hP, ?_, ?_⟩
      · rw [hp']
        exact hst'
      · rw [hP, Nat.and_assoc]
        have h0 : (0o666 : Nat) &&& 0o111 = 0 := by decide
        rw [h0, Nat.and_zero]
      · intro i
        rw [hP]
        simp only [Perm, Nat.testBit_and, testBit_666, Bool.and_assoc]

theorem lookup_put_self (path : String) (n : Node) (d : Disk) (m : Node)
    (h : d.lookup path = some m) : (Disk.put path n d).lookup path = some n := by
  induction d with
  | nil => simp at h
  | cons e rest ih =>
    obtain ⟨q, m'⟩ := e
    by_cases hq : q = path
    · subst hq
      simp [Disk.put, List.lookup_cons]
    · have hne : (path == q) = false := by
        simpa using fun e => hq e.symm
      simp only [List.lookup_cons, hne] at h
      simp only [Disk.put, hq, if_false, List.lookup_cons, hne]
      exact ih h

theorem lookup_put_other (path q : String) (n : Node) (d : Disk) (hq : q ≠ path) :
    (Disk.put path n d).lookup q = d.lookup q := by
  induction d with
  | nil => rfl
  | cons e rest ih =>
    obtain ⟨k, m'⟩ := e
    by_cases hk : k = path
    · subst hk
      have hne : (q == k) = false := by simpa using hq
      simp [Disk.put, List.lookup_cons, hne]
    · simp only [Disk.put, hk, if_false, List.lookup_cons]
      rw [ih]

theorem follow_put_landing (d : Disk) (path : String) (n m : Node)
    (hn : ∀ t, n ≠ .link t) (hm : d.follow path = some m) :
    (Disk.put (d.landing path) n d).follow path = some n := by
  unfold Disk.follow Disk.landing at *
  cases hl : d.lookup path with
  | none => rw [hl] at hm; simp at hm
  | some node =>
    rw [hl] at hm
    cases node with
    | file mode size =>
      simp only
      rw [lookup_put_self path n d _ hl]
      cases n with
      | link t => exact absurd rfl (hn t)
      | file _ _ => rfl
      | dir _ => rfl
    | dir mode =>
      simp only
      rw [lookup_put_self path n d _ hl]
      cases n with
      | link t => exact absurd rfl (hn t)
      | file _ _ => rfl
      | dir _ => rfl
    | link target =>
      simp only at hm ⊢
      have hne : path ≠ target := by
        intro e
        subst e
        rw [hl] at hm
        simp at hm
      cases ht : d.lookup target with
      | none => rw [ht] at hm; simp at hm
      | some tn =>
        rw [lookup_put_other target path n d hne, hl]
        simp only
        rw [lookup_put_self target n d _ ht]
        cases n with
        | link t => exact absurd rfl (hn t)
        | file _ _ => rfl
        | dir _ => rfl

theorem Perm_Perm (mode : Nat) : Perm (Perm mode) = Perm mode := by
  unfold Perm
  rw [Nat.and_assoc, Nat.and_self]

theorem Perm_dir (mode : Nat) : Perm (ModeDir ||| Perm mode) = Perm mode := by
  apply Nat.eq_of_testBit_eq
  intro i
  simp only [Perm, ModeDir, Nat.testBit_and, Nat.testBit_or, Nat.testBit_two_pow]
  by_cases hi : i < 9
  · have : ¬ (31 = i) := by omega
    simp [this]
  · have hpow : (2 : Nat) ^ 9 ≤ 2 ^ i := Nat.pow_le_pow_right (by decide) (by omega)
    have h9 : (2 : Nat) ^ 9 = 512 := by decide
    rw [Nat.testBit_lt_two_pow (x := 0o777) (by omega)]
    simp

theorem diskOS_chmodLaw : ChmodLaw diskOS := by
  intro d d' path mode h
  simp only [diskOS] at h
  cases hf : d.follow path with
  | none => rw [hf] at h; simp at h
  | some node =>
    rw [hf] at h
    cases node with
    | link t => simp at h
    | file m size =>
      simp only [Prod.mk.injEq, and_true] at h
      subst h
      refine ⟨(Node.file (Perm mode) size).info, ?_, ?_⟩
      · simp only [diskOS]
        rw [follow_put_landing d path _ _ (by intro t; simp) hf]
      · exact Perm_Perm mode
    | dir m =>
      simp only [Prod.mk.injEq, and_true] at h
      subst h
      refine ⟨(Node.dir (Perm mode)).info, ?_, ?_⟩
      · simp only [diskOS]
        rw [follow_put_landing d path _ _ (by intro t; simp) hf]
      · exact Perm_dir mode

/-- The copy branch at a concrete input: the executable, of mode 0755, is copied
and ends with mode 0644. -/
theorem copyBranch_clears_exec_bits_witness :
    (ChmodLaw diskOS
      ∧ srcFs.Stat diskOS sourceDisk "iw6mp64_ship.exe" = .ok ⟨0o755, 5000⟩
      ∧ (0o755 : Nat) &&& 0o666 ≠ 0
      ∧ copyBranch diskOS srcFs dstFs "iw6mp64_ship.exe" "." ⟨sourceDisk, 0, []⟩
          = .next ⟨sourceDisk ++ [("/dst/iw6mp64_ship.exe", .file 0o644 5000)], 5000,
              [.copy "iw6mp64_ship.exe" 0o644 true]⟩)
    ∧ ∃ info', dstFs.Stat diskOS
          (sourceDisk ++ [("/dst/iw6mp64_ship.exe", .file 0o644 5000)]) "iw6mp64_ship.exe"
            = .ok info'
        ∧ Perm info'.Mode = 0o755 &&& 0o666
        ∧ Perm info'.Mode &&& 0o111 = 0
        ∧ ∀ i, (Perm info'.Mode).testBit i
            = ((Perm 0o755).testBit i && !(0o111 : Nat).testBit i) :=
  ⟨⟨diskOS_chmodLaw, by rfl, by decide, by rfl⟩,
    copyBranch_clears_exec_bits diskOS diskOS_chmodLaw srcFs dstFs "iw6mp64_ship.exe" "."
      ⟨sourceDisk, 0, []⟩
      ⟨sourceDisk ++ [("/dst/iw6mp64_ship.exe", .file 0o644 5000)], 5000,
        [.copy "iw6mp64_ship.exe" 0o644 true]⟩
      ⟨0o755, 5000⟩ (by rfl) (by decide) (by rfl)⟩

theorem Keeps.refl {σ : Type} (os : OS σ) (w : σ) : Keeps os w w :=
  ⟨fun _ _ h => h, fun _ info h hd => ⟨info, h, hd⟩⟩

theorem Keeps.trans {σ : Type} {os : OS σ} {w₁ w₂ w₃ : σ} (h₁ : Keeps os w₁ w₂)
    (h₂ : Keeps os w₂ w₃) : Keeps os w₁ w₃ := by
  refine ⟨fun path target h => h₂.1 path target (h₁.1 path target h), ?_⟩
  intro path info h hd
  obtain ⟨info', h', hd'⟩ := h₁.2 path info h hd
  exact h₂.2 path info' h' hd'

theorem Keeps.mkdirAll {σ : Type} {os : OS σ} (laws : LinkLaws os) (w : σ) (dir : String)
    (perm : Nat) : Keeps os w (os.MkdirAll w dir perm).1 :=
  ⟨fun path target h => laws.mkdirAll_readlink w dir perm path target h,
   fun path info h hd => laws.mkdirAll_dir w dir perm path info h hd⟩

theorem Keeps.symlink {σ : Type} {os : OS σ} (laws : LinkLaws os) (w : σ)
    (oldname newname : String) : Keeps os w (os.Symlink w oldname newname).1 :=
  ⟨fun path target h => laws.symlink_keeps_readlink w oldname newname path target h,
   fun path info h hd => laws.symlink_dir w oldname newname path info h hd⟩

theorem alreadyLinked_iff {σ : Type} (os : OS σ) (sourceFs targetFs : fileSystem) (w : σ)
    (relPath : String) :
    alreadyLinked os sourceFs targetFs w relPath = true
      ↔ os.Readlink w (targetFs.FullPath relPath) = .ok (sourceFs.FullPath relPath) := by
  unfold alreadyLinked fileSystem.Readlink
  cases h : os.Readlink w (targetFs.FullPath relPath) with
  | error e => simp
  | ok t => simp

theorem alreadyLinked_keeps {σ : Type} {os : OS σ} {sourceFs targetFs : fileSystem} {w w' : σ}
    {relPath : String} (hk : Keeps os w w')
    (h : alreadyLinked os sourceFs targetFs w relPath = true) :
    alreadyLinked os sourceFs targetFs w' relPath = true := by
  rw [alreadyLinked_iff] at h ⊢
  exact hk.1 _ _ h

theorem selectUnit_stable {σ : Type} {os : OS σ} (laws : LinkLaws os) (cfg : Paths)
    (sourceFs targetFs : fileSystem) {w w' : σ} (hk : Keeps os w w')
    (relPath dirPath unit dir : String)
    (hsel : selectUnit os cfg targetFs w relPath dirPath = .ok (unit, dir))
    (hlinked : alreadyLinked os sourceFs targetFs w' unit = true) :
    selectUnit os cfg targetFs w' relPath dirPath = .ok (unit, dir) := by
  unfold selectUnit at hsel ⊢
  rcases hp : promote relPath dirPath cfg.symlinkableFolderPaths with ⟨r, dr⟩
  rw [hp] at hsel
  dsimp only at hsel ⊢
  -- when the unit is the promoted path, it is a symlink in `w'`, hence no directory
  have promoted : (unit, dir) = (r, dr) →
      (match targetFs.Lstat os w' r with
        | .error err => if !IsNotExist err then Except.error err else .ok (r, dr)
        | .ok targetInfo =>
          if targetInfo.IsDir then Except.ok (relPath, dirPath) else .ok (r, dr))
        = .ok (unit, dir) := by
    intro e
    have hu : unit = r := congrArg Prod.fst e
    rw [alreadyLinked_iff, hu] at hlinked
    obtain ⟨info, hl, hd⟩ := laws.readlink_lstat w' _ _ hlinked
    unfold fileSystem.Lstat
    rw [hl]
    simp [hd, e]
  cases hl : targetFs.Lstat os w r with
  | error err =>
    rw [hl] at hsel
    dsimp only at hsel
    by_cases hne : IsNotExist err = true
    · simp only [hne, Bool.not_true, Bool.false_eq_true, if_false] at hsel
      injection hsel with hsel
      exact promoted hsel.symm
    · simp [hne] at hsel
  | ok info =>
    rw [hl] at hsel
    dsimp only at hsel
    by_cases hd : info.IsDir = true
    · rw [if_pos hd] at hsel
      unfold fileSystem.Lstat at hl
      obtain ⟨info', hl', hd'⟩ := hk.2 _ info hl hd
      unfold fileSystem.Lstat
      rw [hl']
      simp only [hd', if_true]
      exact hsel
    · rw [if_neg hd] at hsel
      injection hsel with hsel
      exact promoted hsel.symm

theorem Settled.mono {σ : Type} {os : OS σ} (laws : LinkLaws os) {cfg : Paths}
    {sourceFs targetFs : fileSystem} {w w' : σ} (hk : Keeps os w w') {relPath : String}
    (h : Settled os cfg sourceFs targetFs w relPath) :
    Settled os cfg sourceFs targetFs w' relPath := by
  obtain ⟨unit, dir, hsel, hl⟩ := h
  have hl' := alreadyLinked_keeps hk hl
  exact ⟨unit, dir, selectUnit_stable laws cfg sourceFs targetFs hk _ _ _ _ hsel hl', hl'⟩

theorem copyBranch_ops {σ : Type} (os : OS σ) (sourceFs targetFs : fileSystem)
    (relPath dirPath : String) (p p' : Progress σ)
    (h : copyBranch os sourceFs targetFs relPath dirPath p = .next p') :
    ∃ mode, p'.ops = p.ops ++ [.copy relPath mode true] := by
  unfold copyBranch at h
  cases hstat : sourceFs.Stat os p.world relPath with
  | error e => rw [hstat] at h; cases h
  | ok info =>
    rw [hstat] at h
    dsimp only at h
    rcases hmk : targetFs.MkdirAll os p.world dirPath (info.Mode ||| 0o700) with ⟨w₁, merr⟩
    rw [hmk] at h
    dsimp only at h
    by_cases hf : mkdirFailed merr = true
    · rw [if_pos hf] at h
      cases h
    · rw [if_neg hf] at h
      rcases hcp : sourceFs.CopyToFs os w₁ relPath targetFs (info.Mode &&& 0o666)
        with ⟨w₂, cerr⟩
      rw [hcp] at h
      cases cerr with
      | some e => cases h
      | none =>
        dsimp only at h
        injection h with h
        exact ⟨info.Mode &&& 0o666, by rw [← h]⟩

theorem allSymlinked_append (xs ys : List Op) :
    allSymlinked (xs ++ ys) = (allSymlinked xs && allSymlinked ys) := by
  simp [allSymlinked, List.all_append]

theorem deployPath_symlinked {σ : Type} {os : OS σ} (laws : LinkLaws os) (cfg : Paths)
    (flags : Flags) (hsym : flags.shouldSymlink = true) (sourceFs targetFs : fileSystem)
    (relPath : String) (p p' : Progress σ)
    (hstep : deployPath os cfg flags sourceFs targetFs relPath p = .next p')
    (hall : allSymlinked p'.ops = true) :
    Keeps os p.world p'.world ∧ Settled os cfg sourceFs targetFs p'.world relPath
      ∧ allSymlinked p.ops = true := by
  unfold deployPath at hstep
  simp only [hsym, if_true] at hstep
  cases hsel : selectUnit os cfg targetFs p.world relPath (Dir relPath) with
  | error e => rw [hsel] at hstep; cases hstep
  | ok ud =>
    obtain ⟨u, d⟩ := ud
    rw [hsel] at hstep
    dsimp only at hstep
    by_cases hal : alreadyLinked os sourceFs targetFs p.world u = true
    · rw [if_pos hal] at hstep
      injection hstep with hstep
      subst hstep
      exact ⟨Keeps.refl os _, ⟨u, d, hsel, hal⟩, hall⟩
    · rw [if_neg hal] at hstep
      cases hstat : sourceFs.Stat os p.world u with
      | error e => rw [hstat] at hstep; cases hstep
      | ok info =>
        rw [hstat] at hstep
        dsimp only at hstep
        rcases hmk : targetFs.MkdirAll os p.world d (info.Mode ||| 0o700) with ⟨w₁, merr⟩
        rw [hmk] at hstep
        dsimp only at hstep
        by_cases hf : mkdirFailed merr = true
        · rw [if_pos hf] at hstep
          cases hstep
        · rw [if_neg hf] at hstep
          rcases hln : sourceFs.SymlinkFromFs os w₁ u targetFs with ⟨w₂, lerr⟩
          rw [hln] at hstep
          cases lerr with
          | some e =>
            dsimp only at hstep
            by_cases hfail : flags.shouldFailOnSymlinkError = true
            · simp only [hfail, Bool.not_true, Bool.false_eq_true, if_false] at hstep
              cases hstep
            · simp only [hfail, Bool.not_false, if_true] at hstep
              obtain ⟨mode, hops⟩ := copyBranch_ops os sourceFs targetFs _ _ _ _ hstep
              rw [hops, allSymlinked_append] at hall
              simp [allSymlinked] at hall
          | none =>
            dsimp only at hstep
            injection hstep with hstep
            subst hstep
            dsimp only at hall ⊢
            have hw₁ : w₁ = (os.MkdirAll p.world (targetFs.FullPath d)
                (info.Mode ||| 0o700)).1 := by
              unfold fileSystem.MkdirAll at hmk
              rw [hmk]
            have hln' : os.Symlink w₁ (sourceFs.FullPath u) (targetFs.FullPath u)
                = (w₂, none) := hln
            have hw₂ : w₂ = (os.Symlink w₁ (sourceFs.FullPath u) (targetFs.FullPath u)).1 := by
              rw [hln']
            have hk : Keeps os p.world w₂ := by
              refine @Keeps.trans _ os p.world w₁ w₂ ?_ ?_
              · rw [hw₁]; exact Keeps.mkdirAll laws _ _ _
              · rw [hw₂]; exact Keeps.symlink laws _ _ _
            have hl₂ : alreadyLinked os sourceFs targetFs w₂ u = true := by
              rw [alreadyLinked_iff]
              exact laws.symlink_readlink w₁ w₂ _ _ hln'
            rw [allSymlinked_append, Bool.and_eq_true] at hall
            exact ⟨hk,
              ⟨u, d, selectUnit_stable laws cfg sourceFs targetFs hk _ _ _ _ hsel hl₂, hl₂⟩,
              hall.1⟩

theorem copyBranch_ne_allOk {σ : Type} (os : OS σ) (sourceFs targetFs : fileSystem)
    (relPath dirPath : String) (p q : Progress σ) :
    copyBranch os sourceFs targetFs relPath dirPath p ≠ .exit (.allOk q) := by
  intro h
  unfold copyBranch at h
  repeat' first
    | cases h
    | split at h
    | dsimp only at h

theorem deployPath_ne_allOk {σ : Type} (os : OS σ) (cfg : Paths) (flags : Flags)
    (sourceFs targetFs : fileSystem) (relPath : String) (p q : Progress σ) :
    deployPath os cfg flags sourceFs targetFs relPath p ≠ .exit (.allOk q) := by
  intro h
  unfold deployPath at h
  repeat' first
    | cases h
    | exact copyBranch_ne_allOk _ _ _ _ _ _ _ h
    | split at h
    | dsimp only at h

theorem deployLoop_first_run {σ : Type} {os : OS σ} (laws : LinkLaws os) (cfg : Paths)
    (flags : Flags) (hsym : flags.shouldSymlink = true) (sourceFs targetFs : fileSystem)
    (allCheckedPaths : List String) :
    ∀ p p₁ : Progress σ,
      deployLoop os cfg flags sourceFs targetFs allCheckedPaths p = .allOk p₁ →
      allSymlinked p₁.ops = true →
      Keeps os p.world p₁.world
        ∧ (∀ relPath ∈ allCheckedPaths, Settled os cfg sourceFs targetFs p₁.world relPath)
        ∧ allSymlinked p.ops = true := by
  induction allCheckedPaths with
  | nil =>
    intro p p₁ h hall
    simp only [deployLoop] at h
    injection h with h
    subst h
    exact ⟨Keeps.refl os _, by simp, hall⟩
  | cons relPath rest ih =>
    intro p p₁ h hall
    simp only [deployLoop] at h
    cases hstep : deployPath os cfg flags sourceFs targetFs relPath p with
    | exit e =>
      rw [hstep] at h
      dsimp only at h
      subst h
      exact absurd hstep (deployPath_ne_allOk os cfg flags sourceFs targetFs relPath p p₁)
    | next p' =>
      rw [hstep] at h
      dsimp only at h
      obtain ⟨hk₂, hsettled, hall'⟩ := ih p' p₁ h hall
      obtain ⟨hk₁, hs₁, hall₀⟩ :=
        deployPath_symlinked laws cfg flags hsym sourceFs targetFs relPath p p' hstep hall'
      refine ⟨Keeps.trans hk₁ hk₂, ?_, hall₀⟩
      intro q hq
      rcases List.mem_cons.mp hq with rfl | hq
      · exact Settled.mono laws hk₂ hs₁
      · exact hsettled q hq

theorem deployLoop_all_settled {σ : Type} (os : OS σ) (cfg : Paths) (flags : Flags)
    (hsym : flags.shouldSymlink = true) (sourceFs targetFs : fileSystem)
    (allCheckedPaths : List String) (p : Progress σ)
    (h : ∀ relPath ∈ allCheckedPaths, Settled os cfg sourceFs targetFs p.world relPath) :
    deployLoop os cfg flags sourceFs targetFs allCheckedPaths p = .allOk p := by
  induction allCheckedPaths with
  | nil => rfl
  | cons relPath rest ih =>
    obtain ⟨u, d, hsel, hal⟩ := h relPath (List.mem_cons_self _ _)
    have hstep : deployPath os cfg flags sourceFs targetFs relPath p = .next p := by
      unfold deployPath
      simp only [hsym, if_true, hsel, hal]
    simp only [deployLoop, hstep]
    exact ih (fun q hq => h q (List.mem_cons_of_mem _ hq))

/-- C9, amended: if a first run of the deployment loop in symlink mode ends
normally having made only successful symlink calls (every unit was linked or
found linked already), then a second run over the resulting state makes no
symlink call and no copy call, leaves the state unchanged and adds nothing to
`totalSize`, which ends at 0 whatever the first run counted. -/
theorem deployLoop_second_run_skips {σ : Type} (os : OS σ) (laws : LinkLaws os) (cfg : Paths)
    (flags : Flags) (hsym : flags.shouldSymlink = true) (sourceFs targetFs : fileSystem)
    (allCheckedPaths : List String) (w₀ w₁ : σ) (total₁ : Nat) (ops₁ : List Op)
    (hfirst : deployLoop os cfg flags sourceFs targetFs allCheckedPaths ⟨w₀, 0, []⟩
      = .allOk ⟨w₁, total₁, ops₁⟩)
    (hlinked : allSymlinked ops₁ = true) :
    deployLoop os cfg flags sourceFs targetFs allCheckedPaths ⟨w₁, 0, []⟩
      = .allOk ⟨w₁, 0, []⟩ := by
  obtain ⟨_, hsettled, _⟩ :=
    deployLoop_first_run laws cfg flags hsym sourceFs targetFs allCheckedPaths _ _ hfirst hlinked
  exact deployLoop_all_settled os cfg flags hsym sourceFs targetFs allCheckedPaths
    ⟨w₁, 0, []⟩ hsettled

theorem lookup_append_of_some (d e : Disk) (path : String) (n : Node)
    (h : d.lookup path = some n) : (d ++ e).lookup path = some n := by
  rw [List.lookup_append, h]
  rfl

theorem diskOS_readlink_append (d e : Disk) (path target : String)
    (h : diskOS.Readlink d path = .ok target) : diskOS.Readlink (d ++ e) path = .ok target := by
  simp only [diskOS] at h ⊢
  cases hl : d.lookup path with
  | none => rw [hl] at h; cases h
  | some node =>
    rw [lookup_append_of_some d e path node hl]
    rw [hl] at h
    exact h

theorem diskOS_lstat_append (d e : Disk) (path : String) (info : FileInfo)
    (h : diskOS.Lstat d path = .ok info) : diskOS.Lstat (d ++ e) path = .ok info := by
  simp only [diskOS] at h ⊢
  cases hl : d.lookup path with
  | none => rw [hl] at h; cases h
  | some node =>
    rw [lookup_append_of_some d e path node hl]
    rw [hl] at h
    exact h

theorem diskOS_mkdirAll_grows (d : Disk) (dir : String) (perm : Nat) :
    ∃ e, (diskOS.MkdirAll d dir perm).1 = d ++ e := by
  simp only [diskOS]
  cases d.follow dir with
  | some node =>
    cases node <;> exact ⟨[], by simp⟩
  | none =>
    cases d.lookup dir with
    | none => exact ⟨_, rfl⟩
    | some node => exact ⟨[], by simp⟩

theorem diskOS_symlink_grows (d : Disk) (oldname newname : String) :
    ∃ e, (diskOS.Symlink d oldname newname).1 = d ++ e := by
  simp only [diskOS]
  cases d.lookup newname with
  | none => exact ⟨_, rfl⟩
  | some node => exact ⟨[], by simp⟩

theorem diskOS_linkLaws : LinkLaws diskOS where
  readlink_lstat := by
    intro d path target h
    simp only [diskOS] at h ⊢
    cases hl : d.lookup path with
    | none => rw [hl] at h; cases h
    | some node =>
      rw [hl] at h
      cases node with
      | file m s => cases h
      | dir m => cases h
      | link t =>
        refine ⟨_, rfl, ?_⟩
        show ((ModeSymlink ||| 0o777) &&& ModeDir != 0) = false
        decide
  symlink_readlink := by
    intro d d' oldname newname h
    simp only [diskOS] at h ⊢
    cases hl : d.lookup newname with
    | some node => rw [hl] at h; cases h
    | none =>
      rw [hl] at h
      simp only [Prod.mk.injEq, and_true] at h
      subst h
      rw [List.lookup_append, hl]
      simp [List.lookup_cons]
  mkdirAll_readlink := by
    intro d dir perm path target h
    obtain ⟨e, he⟩ := diskOS_mkdirAll_grows d dir perm
    rw [he]
    exact diskOS_readlink_append d e path target h
  symlink_keeps_readlink := by
    intro d oldname newname path target h
    obtain ⟨e, he⟩ := diskOS_symlink_grows d oldname newname
    rw [he]
    exact diskOS_readlink_append d e path target h
  mkdirAll_dir := by
    intro d dir perm path info h hd
    obtain ⟨e, he⟩ := diskOS_mkdirAll_grows d dir perm
    rw [he]
    exact ⟨info, diskOS_lstat_append d e path info h, hd⟩
  symlink_dir := by
    intro d oldname newname path info h hd
    obtain ⟨e, he⟩ := diskOS_symlink_grows d oldname newname
    rw [he]
    exact ⟨info, diskOS_lstat_append d e path info h, hd⟩

/-- C9, at a concrete input: the symlink run over the three required entries
links the folders `main` and `zone` and the executable; the second run over the
resulting state is all skips. -/
theorem deployLoop_second_run_skips_witness :
    (LinkLaws diskOS
      ∧ (⟨true, false⟩ : Flags).shouldSymlink = true
      ∧ deployLoop diskOS paths ⟨true, false⟩ srcFs dstFs
          ["main/fileSysCheck.cfg", "zone/common.ff", "iw6mp64_ship.exe"] ⟨sourceDisk, 0, []⟩
        = .allOk ⟨linkedDisk, 13192,
            [.symlink "main" true, .symlink "zone" true, .symlink "iw6mp64_ship.exe" true]⟩
      ∧ allSymlinked
          [.symlink "main" true, .symlink "zone" true, .symlink "iw6mp64_ship.exe" true] = true)
    ∧ deployLoop diskOS paths ⟨true, false⟩ srcFs dstFs
          ["main/fileSysCheck.cfg", "zone/common.ff", "iw6mp64_ship.exe"] ⟨linkedDisk, 0, []⟩
        = .allOk ⟨linkedDisk, 0, []⟩ :=
  ⟨⟨diskOS_linkLaws, rfl, by rfl, by decide⟩,
    deployLoop_second_run_skips diskOS diskOS_linkLaws paths ⟨true, false⟩ rfl srcFs dstFs
      ["main/fileSysCheck.cfg", "zone/common.ff", "iw6mp64_ship.exe"] sourceDisk linkedDisk
      13192 [.symlink "main" true, .symlink "zone" true, .symlink "iw6mp64_ship.exe" true]
      (by rfl) (by decide)⟩

end Iw6xZero
